import Mathlib

/-! # Verification of two controllers of `rancher`

* `pkg/controllers/user/dnsrecord/dnsrecord.go`: the DNS-record service reconciler
  (`Controller.sync`, `Controller.reconcileEndpoints`) and the endpoint-change router
  (`EndpointController.reconcileServicesForEndpoint`), which share the process-wide
  reverse index `dnsServiceUUIDToTargetEndpointUUIDs`.
* `pkg/generated/controllers/management.cattle.io/v3/dynamicschema.go`: the generated status
  handler `dynamicSchemaStatusHandler.sync`.

The Go code is embedded shallowly.  Collaborators that live outside the repository (the JSON
decoder, the endpoint lister and client, the work queue, the wrangler condition helpers, the
status client) are parameters of the model; every call the code makes to a collaborator with an
observable effect (`Create`, `Update`, `UpdateStatus`, `Enqueue`, `lister.Get`) is recorded in
the result in call order.
-/

namespace Rancher

/-! ## Go runtime values -/

/-- A Go slice value: `nil` is the nil slice, `mk l` a non-nil slice holding `l`
(`mk []` is the empty non-nil slice, which `reflect.DeepEqual` distinguishes from `nil`). -/
inductive GoSlice (α : Type) where
  | nil : GoSlice α
  | mk (elems : List α) : GoSlice α
  deriving DecidableEq, Repr

/-- The elements of a slice, in order (what `range` and `xs...` see). -/
def GoSlice.toList {α : Type} : GoSlice α → List α
  | .nil => []
  | .mk l => l

/-- The builtin `append(s, xs...)`: appending nothing returns `s` itself (so a nil slice stays
nil), otherwise the result is a non-nil slice holding the elements of both. -/
def goAppend {α : Type} (s xs : GoSlice α) : GoSlice α :=
  match xs.toList with
  | [] => s
  | y :: ys => GoSlice.mk (s.toList ++ y :: ys)

/-- A Go map with string keys (also used for `sync.Map`, whose keys here are strings): a list of
entries whose keys are pairwise distinct.  The list order is the order in which `Range` visits
the entries; no theorem depends on it. -/
structure GoMap (V : Type) where
  entries : List (String × V)
  nodup : (entries.map Prod.fst).Nodup

namespace GoMap

variable {V : Type}

/-- The map `make(map[string]V)`, and the zero `sync.Map`. -/
def empty : GoMap V := ⟨[], List.nodup_nil⟩

/-- The keys of the map, in iteration order. -/
def keys (m : GoMap V) : List String := m.entries.map Prod.fst

/-- The read `v, ok := m[k]` (for `sync.Map`, `Load`): `none` when the key is absent. -/
def Load (m : GoMap V) (k : String) : Option V := m.entries.lookup k

/-- The `ok` of `_, ok := m[k]`. -/
def contains (m : GoMap V) (k : String) : Bool := (m.Load k).isSome

/-- The statement `delete(m, k)` (for `sync.Map`, `Delete`). -/
def Delete (m : GoMap V) (k : String) : GoMap V :=
  ⟨m.entries.filter (fun e => e.1 ≠ k),
    ((List.filter_sublist m.entries).map Prod.fst).nodup m.nodup⟩

/-- The statement `m[k] = v` (for `sync.Map`, `Store`): the entry of `k` is replaced. -/
def Store (m : GoMap V) (k : String) (v : V) : GoMap V :=
  ⟨(k, v) :: m.entries.filter (fun e => e.1 ≠ k), by
    rw [List.map_cons, List.nodup_cons]
    refine ⟨?_, ((List.filter_sublist m.entries).map Prod.fst).nodup m.nodup⟩
    intro h
    obtain ⟨e, he, hk⟩ := List.mem_map.1 h
    have := (List.mem_filter.1 he).2
    simp at this
    exact this hk⟩

end GoMap

/-! ## The `strings` functions the controllers call -/

/-- The predicate `unicode.IsSpace`: the Latin-1 spaces `\t \n \v \f \r`, space, U+0085, U+00A0,
and the other code points of the Unicode White_Space property. -/
def isSpace (c : Char) : Bool :=
  let n := c.toNat
  (0x09 ≤ n && n ≤ 0x0d) || n == 0x20 || n == 0x85 || n == 0xa0 || n == 0x1680 ||
  (0x2000 ≤ n && n ≤ 0x200a) || n == 0x2028 || n == 0x2029 || n == 0x202f || n == 0x205f ||
  n == 0x3000

/-- The function `strings.TrimSpace`: leading and trailing white space removed. -/
def strings_TrimSpace (s : String) : String :=
  String.mk ((s.data.dropWhile isSpace).reverse.dropWhile isSpace).reverse

/-- The pieces of a character list between the occurrences of `sep`. -/
def splitChars (sep : Char) : List Char → List (List Char)
  | [] => [[]]
  | c :: cs =>
    if c = sep then [] :: splitChars sep cs
    else
      match splitChars sep cs with
      | [] => [[c]]
      | p :: ps => (c :: p) :: ps

/-- The function `strings.Split(s, sep)` for a separator of one character (the code calls it
with ":" and "/"): `s` is cut at every occurrence of the separator, so the result has one more
element than `s` has separators, and is never empty. -/
def strings_Split (s : String) (sep : Char) : List String :=
  (splitChars sep s.data).map String.mk

/-! ## Errors -/

/-- The error values the controllers see or build. -/
inductive Error where
  /-- an API status error with reason NotFound -/
  | notFound : Error
  /-- an API status error with reason Conflict -/
  | conflict : Error
  /-- any other error of a collaborator -/
  | other (msg : String) : Error
  /-- the error `fmt.Errorf("wrong format for dns record [%s]", groomed)` -/
  | wrongFormat (groomed : String) : Error
  /-- the error `errors.Wrapf(cause, ...)` -/
  | wrapped (context : String) (cause : Error) : Error
  deriving DecidableEq, Repr

/-- The test `apierrors.IsNotFound(err)` on a non-nil error. -/
def IsNotFound : Error → Bool
  | .notFound => true
  | _ => false

/-- Whether an error is an API status error with reason Conflict, or wraps one (the reason of
an error is read through the wrappers, as `errors.As` does). -/
def Error.reasonIsConflict : Error → Bool
  | .conflict => true
  | .wrapped _ cause => cause.reasonIsConflict
  | _ => false

/-- The test `errors.IsConflict(err)` of apimachinery: true for a conflict status error, also
when it is wrapped; a nil error is not a conflict. -/
def IsConflict : Option Error → Bool
  | some err => err.reasonIsConflict
  | none => false

namespace Dnsrecord

/-! ## Data model of `dnsrecord.go` -/

/-- The constant `DNSAnnotation`. -/
def DNSAnnotation : String := "field.cattle.io/targetDnsRecordIds"

/-- The type `metav1.OwnerReference`, with the fields the controller sets. -/
structure OwnerReference where
  APIVersion : String
  Kind : String
  Name : String
  UID : String
  Controller : Option Bool
  deriving DecidableEq, Repr

/-- The type `corev1.Endpoints`, with the fields the controller reads or writes; `S` is the type
of `corev1.EndpointSubset` values, compared by `reflect.DeepEqual` (equality of `S`). -/
structure Endpoints (S : Type) where
  Namespace : String
  Name : String
  DeletionTimestamp : Option String
  OwnerReferences : List OwnerReference
  Subsets : GoSlice S
  deriving DecidableEq, Repr

/-- The type `corev1.Service`, with the fields the controller reads. -/
structure Service where
  Namespace : String
  Name : String
  UID : String
  DeletionTimestamp : Option String
  Annotations : Option (GoMap String)

/-- The set of target-endpoint keys of one front service, a `map[string]bool`. -/
abbrev TargetSet := GoMap Bool

/-- The state of the process-wide `dnsServiceUUIDToTargetEndpointUUIDs` (a `sync.Map` from
front-service key to target set). -/
abbrev ReverseIndex := GoMap TargetSet

/-- The collaborators of `Controller`.  `listerGet` is `c.endpointLister.Get`: it returns either
an object and a nil error, or a nil object and an error.  `create` and `update` give the error
result of `c.endpoints.Create` and `c.endpoints.Update` (`none` is nil).  `unmarshal` is
`json.Unmarshal` into a `[]string`. -/
structure Env (S : Type) where
  unmarshal : String → Except Error (List String)
  listerGet : String → String → Except Error (Endpoints S)
  create : Endpoints S → Option Error
  update : Endpoints S → Option Error

/-- A call to the endpoint client. -/
inductive Write (S : Type) where
  | create (ep : Endpoints S) : Write S
  | update (ep : Endpoints S) : Write S
  deriving DecidableEq, Repr

/-- The object passed to the client by a write. -/
def Write.ep {S : Type} : Write S → Endpoints S
  | .create ep => ep
  | .update ep => ep

/-- The local variables of the target loop of `reconcileEndpoints` (lines 86 to 108), with the
arguments of the `endpointLister.Get` calls made so far. -/
structure LoopState (S : Type) where
  newEndpointSubsets : GoSlice S
  targetEndpointUUIDs : TargetSet
  gets : List (String × String)

/-- What a call of `Controller.sync` or `Controller.reconcileEndpoints` did: the returned error
(`none` is nil), the reverse index afterwards, the client calls in order, and the arguments of
the lister calls in order. -/
structure Result (S : Type) where
  err : Option Error
  index : ReverseIndex
  writes : List (Write S)
  gets : List (String × String)

variable {S : Type} [DecidableEq S]

/-- The loop `for _, record := range records` of `reconcileEndpoints`.  It exits early with
the wrong-format error, or runs to the end; the state at exit is returned in both cases. -/
def resolveTargets (env : Env S) : List String → LoopState S → Option Error × LoopState S
  | [], st => (none, st)
  | record :: rest, st =>
    let groomed := strings_TrimSpace record
    let namespaceService := strings_Split groomed ':'
    match namespaceService with
    | ns :: service :: _ =>
      let st1 : LoopState S := { st with gets := st.gets ++ [(ns, service)] }
      match env.listerGet ns service with
      | .error _ => resolveTargets env rest st1
      | .ok targetEndpoint =>
        if targetEndpoint.DeletionTimestamp.isSome then resolveTargets env rest st1
        else
          let targetEndpointUUID := targetEndpoint.Namespace ++ "/" ++ targetEndpoint.Name
          resolveTargets env rest
            { newEndpointSubsets := goAppend st1.newEndpointSubsets targetEndpoint.Subsets
              targetEndpointUUIDs := st1.targetEndpointUUIDs.Store targetEndpointUUID true
              gets := st1.gets }
    | _ => (some (Error.wrongFormat groomed), st)

/-- The state of the loop variables before the first iteration. -/
def initLoop : LoopState S :=
  { newEndpointSubsets := GoSlice.nil, targetEndpointUUIDs := GoMap.empty, gets := [] }

/-- The part of `reconcileEndpoints` after the loop (lines 109 to 152): store the target set,
fetch the endpoint of the front service, and create or update it. -/
def writeEndpoints (env : Env S) (idx : ReverseIndex) (key : String) (obj : Service)
    (st : LoopState S) : Result S :=
  let idx1 := idx.Store key st.targetEndpointUUIDs
  let gets := st.gets ++ [(obj.Namespace, obj.Name)]
  match env.listerGet obj.Namespace obj.Name with
  | .error err =>
    if !IsNotFound err then
      ⟨some (Error.wrapped "Failed to fetch endpoints for DNSRecord service" err), idx1, [], gets⟩
    else
      let ownerRef : OwnerReference :=
        { Name := obj.Name, APIVersion := "v1", UID := obj.UID, Kind := "Service",
          Controller := some true }
      let ep : Endpoints S :=
        { Name := obj.Name, OwnerReferences := [ownerRef], Namespace := obj.Namespace,
          DeletionTimestamp := none, Subsets := st.newEndpointSubsets }
      match env.create ep with
      | some err => ⟨some err, idx1, [Write.create ep], gets⟩
      | none => ⟨none, idx1, [Write.create ep], gets⟩
  | .ok ep =>
    if ep.Subsets = st.newEndpointSubsets then ⟨none, idx1, [], gets⟩
    else
      let toUpdate : Endpoints S := { ep with Subsets := st.newEndpointSubsets }
      match env.update toUpdate with
      | some err =>
        ⟨some (Error.wrapped "Failed to update endpoint for DNSRecord service" err), idx1,
          [Write.update toUpdate], gets⟩
      | none => ⟨none, idx1, [Write.update toUpdate], gets⟩

/-- The method `Controller.reconcileEndpoints`. -/
def reconcileEndpoints (env : Env S) (idx : ReverseIndex) (key : String) (obj : Service) :
    Result S :=
  match obj.Annotations with
  | none => ⟨none, idx, [], []⟩
  | some annotations =>
    match annotations.Load DNSAnnotation with
    | none => ⟨none, idx, [], []⟩
    | some value =>
      match env.unmarshal value with
      | .error err => ⟨some err, idx, [], []⟩
      | .ok records =>
        match resolveTargets env records initLoop with
        | (some err, st) => ⟨some err, idx, [], st.gets⟩
        | (none, st) => writeEndpoints env idx key obj st

/-- The method `Controller.sync`; `none` is the nil object. -/
def sync (env : Env S) (idx : ReverseIndex) (key : String) (obj : Option Service) : Result S :=
  match obj with
  | none => ⟨none, idx.Delete key, [], []⟩
  | some o =>
    if o.DeletionTimestamp.isSome then ⟨none, idx.Delete key, [], []⟩
    else reconcileEndpoints env idx key o

/-- A runtime fault of the Go program. -/
inductive Fault where
  | indexOutOfRange : Fault
  deriving DecidableEq, Repr

/-- What a call of `reconcileServicesForEndpoint` did: whether it stopped in a runtime fault
(`none`: it returned, and it can only return nil), the `serviceController.Enqueue` calls in
order, and the reverse index afterwards. -/
structure RouteResult where
  fault : Option Fault
  enqueued : List (String × String)
  index : ReverseIndex

/-- The `Range` call of `reconcileServicesForEndpoint`: the keys of the entries whose target
set has `key`, in visiting order (the callback always returns true, so every entry is
visited). -/
def servicesToReconcile (idx : ReverseIndex) (key : String) : List String :=
  idx.entries.foldl (fun acc e => if e.2.contains key then acc ++ [e.1] else acc) []

/-- The loop over `dnsRecordServicesToReconcile`: each key is split on "/", elements 0 and 1
are read (element 1 is out of range when the key has no "/") and enqueued. -/
def enqueueAll : List String → List (String × String) → Option Fault × List (String × String)
  | [], enqueued => (none, enqueued)
  | dnsRecordServiceToReconcile :: rest, enqueued =>
    match strings_Split dnsRecordServiceToReconcile '/' with
    | ns :: serviceName :: _ => enqueueAll rest (enqueued ++ [(ns, serviceName)])
    | _ => (some Fault.indexOutOfRange, enqueued)

/-- The method `EndpointController.reconcileServicesForEndpoint`; the object argument is not
read by the code. -/
def reconcileServicesForEndpoint (idx : ReverseIndex) (key : String) : RouteResult :=
  let r := enqueueAll (servicesToReconcile idx key) []
  ⟨r.1, r.2, idx⟩

/-! ### Definitions used to state the properties of `dnsrecord.go` -/

/-- The arguments `namespaceService[0]`, `namespaceService[1]` of the lister call the loop makes
for a record, `none` when the record has fewer than two parts. -/
def lookupArgs (record : String) : Option (String × String) :=
  match strings_Split (strings_TrimSpace record) ':' with
  | ns :: service :: _ => some (ns, service)
  | _ => none

/-- The target endpoints that resolve, in annotation order: the lookup succeeds and the
`DeletionTimestamp` of the endpoint is nil. -/
def resolvedTargets (env : Env S) (records : List String) : List (Endpoints S) :=
  records.filterMap fun record =>
    match lookupArgs record with
    | none => none
    | some (ns, service) =>
      match env.listerGet ns service with
      | .error _ => none
      | .ok ep => if ep.DeletionTimestamp = none then some ep else none

/-- The arguments `splitted[0]`, `splitted[1]` of the `Enqueue` call made for a front-service
key, `none` when the key has no "/". -/
def keyParts (k : String) : Option (String × String) :=
  match strings_Split k '/' with
  | ns :: serviceName :: _ => some (ns, serviceName)
  | _ => none

/-- The text before the first colon. -/
def beforeColon (cs : List Char) : List Char := cs.takeWhile (fun c => c ≠ ':')

/-- The text after the first colon (empty when there is no colon). -/
def afterColon (cs : List Char) : List Char := (cs.dropWhile (fun c => c ≠ ':')).drop 1

/-- A record split once on the colon, as the specification words it: the namespace is the text
before the first colon of the trimmed record, the name the entire remainder. -/
def splitOnce (record : String) : String × String :=
  let groomed := (strings_TrimSpace record).data
  (String.mk (beforeColon groomed), String.mk (afterColon groomed))

/-- The first two colon-delimited fields of a record: the namespace is the text before the first
colon of the trimmed record, the name the text after it up to the next colon, if any. -/
def firstTwoFields (record : String) : String × String :=
  let groomed := (strings_TrimSpace record).data
  (String.mk (beforeColon groomed), String.mk (beforeColon (afterColon groomed)))

/-- The error result of a write, as the client of `env` gives it. -/
def Env.writeError (env : Env S) : Write S → Option Error
  | .create ep => env.create ep
  | .update ep => env.update ep

/-- The collaborators once the writes of a pass for the front service `obj` are reflected by
the lister: after a write that succeeded, `Get` of the namespace and name of the front service
returns the object written; a write that failed changes nothing. -/
def Env.afterWrites (env : Env S) (obj : Service) (writes : List (Write S)) : Env S :=
  { env with
    listerGet := writes.foldl
      (fun get w =>
        if (env.writeError w).isNone then
          fun ns name => if ns = obj.Namespace ∧ name = obj.Name then .ok w.ep else get ns name
        else get)
      env.listerGet }

/-- The second of two passes of `Controller.sync` for a live front service made in succession
with nothing else changing: it runs on the reverse index the first pass left, with the lister
reflecting the writes of the first pass. -/
def secondPass (env : Env S) (idx : ReverseIndex) (key : String) (obj : Service) : Result S :=
  sync (env.afterWrites obj (sync env idx key (some obj)).writes)
    (sync env idx key (some obj)).index key (some obj)

/-- A front-service key of the form `namespace/name`: it has exactly one "/". -/
def namespacedKey (k : String) : Prop := k.data.count '/' = 1

instance (k : String) : Decidable (namespacedKey k) := by
  unfold namespacedKey; infer_instance

/-- A key that has a "/". -/
def hasSlash (k : String) : Prop := '/' ∈ k.data

instance (k : String) : Decidable (hasSlash k) := by
  unfold hasSlash; infer_instance

/-- The reverse-index states that calls of `Controller.sync` produce from the empty index, when
every call is made with a key that satisfies `okKey`. -/
inductive Reachable (S : Type) [DecidableEq S] (okKey : String → Prop) : ReverseIndex → Prop where
  | init : Reachable S okKey GoMap.empty
  | step (env : Env S) (idx : ReverseIndex) (key : String) (obj : Option Service) :
      Reachable S okKey idx → okKey key → Reachable S okKey (sync env idx key obj).index

/-! ### Concrete inputs -/

/-- An endpoint object of the cache, with subsets named by strings. -/
def cachedEndpoints (ns name : String) (subsets : List String) : Endpoints String :=
  { Namespace := ns, Name := name, DeletionTimestamp := none, OwnerReferences := [],
    Subsets := GoSlice.mk subsets }

/-- Collaborators for concrete runs: the decoder yields `records` for the annotation value
`value`, the lister serves the objects of `cache` by namespace and name and answers not-found
for the rest, `Create` returns `createErr`, `Update` succeeds. -/
def cacheEnv (value : String) (records : List String) (cache : List (Endpoints String))
    (createErr : Option Error) : Env String :=
  { unmarshal := fun v => if v = value then .ok records else .error (Error.other "invalid JSON")
    listerGet := fun ns name =>
      match cache.find? (fun ep => ep.Namespace = ns ∧ ep.Name = name) with
      | some ep => .ok ep
      | none => .error Error.notFound
    create := fun _ => createErr
    update := fun _ => none }

/-- A live front service `ns/front` whose annotation holds `value`. -/
def frontService (value : String) : Service :=
  { Namespace := "ns", Name := "front", UID := "uid-1", DeletionTimestamp := none,
    Annotations := some (GoMap.empty.Store DNSAnnotation value) }

/-- The annotation value listing the targets `ns1:svcA` and `ns2:svcB`. -/
def twoTargets : String := "[\"ns1:svcA\",\"ns2:svcB\"]"

/-- Collaborators where `ns2/svcB` exists with subsets `b1`, `b2`, `ns1/svcA` does not, and the
annotation `twoTargets` decodes to its two references. -/
def envOnlyB : Env String :=
  cacheEnv twoTargets ["ns1:svcA", "ns2:svcB"] [cachedEndpoints "ns2" "svcB" ["b1", "b2"]] none

/-- Collaborators where both `ns1/svcA` (subset `a1`) and `ns2/svcB` (subsets `b1`, `b2`)
exist. -/
def envBoth : Env String :=
  cacheEnv twoTargets ["ns1:svcA", "ns2:svcB"]
    [cachedEndpoints "ns1" "svcA" ["a1"], cachedEndpoints "ns2" "svcB" ["b1", "b2"]] none

/-- Collaborators where the annotation decodes to `ns2:svcB` followed by the malformed
reference `justonepart`. -/
def envMalformed : Env String :=
  cacheEnv "[\"ns2:svcB\",\"justonepart\"]" ["ns2:svcB", "justonepart"]
    [cachedEndpoints "ns2" "svcB" ["b1", "b2"]] none

/-- Collaborators where the annotation decodes to the reference `a:b:c`, and the endpoints
`a/b` (subset `short`) and `a/b:c` (subset `long`) both exist. -/
def envThreeParts : Env String :=
  cacheEnv "[\"a:b:c\"]" ["a:b:c"]
    [cachedEndpoints "a" "b" ["short"], cachedEndpoints "a" "b:c" ["long"]] none

/-- A target set holding the key `ns2/svcB`. -/
def targetsB : TargetSet := GoMap.empty.Store "ns2/svcB" true

/-- A reverse index where the front services `ns/front` and `ns/other` both depend on
`ns2/svcB`, and `ns/third` depends on `ns1/svcA`. -/
def indexTwoFronts : ReverseIndex :=
  ((GoMap.empty.Store "ns/front" targetsB).Store "ns/other" targetsB).Store "ns/third"
    (GoMap.empty.Store "ns1/svcA" true)

/-- Collaborators where `ns2/svcB` exists and the endpoint of `ns/front` already holds the
subsets of `svcB`. -/
def envUpToDate : Env String :=
  cacheEnv twoTargets ["ns1:svcA", "ns2:svcB"]
    [cachedEndpoints "ns2" "svcB" ["b1", "b2"], cachedEndpoints "ns" "front" ["b1", "b2"]] none

/-- Collaborators where the front service `ns/front` lists its own endpoint `ns:front` as a
target before `ns2:svcB`. -/
def envSelfTarget : Env String :=
  cacheEnv "[\"ns:front\",\"ns2:svcB\"]" ["ns:front", "ns2:svcB"]
    [cachedEndpoints "ns2" "svcB" ["b1", "b2"]] none

/-- Collaborators as `envOnlyB`, with a `Create` that fails. -/
def envCreateFails : Env String :=
  cacheEnv twoTargets ["ns1:svcA", "ns2:svcB"] [cachedEndpoints "ns2" "svcB" ["b1", "b2"]]
    (some (Error.other "forbidden"))

/-- Collaborators as `envOnlyB`, with a lister whose lookup of the endpoint of `ns/front`
fails with an error other than not-found. -/
def envLookupFails : Env String :=
  { envOnlyB with
    listerGet := fun ns name =>
      if ns = "ns" ∧ name = "front" then .error (Error.other "cache not synced")
      else envOnlyB.listerGet ns name }

/-- The reverse index after a pass of `Controller.sync` for the front service under the key
`first` and then one under the key `second`, both resolving the target `ns2/svcB`. -/
def indexAfter (first second : String) : ReverseIndex :=
  (sync envOnlyB (sync envOnlyB GoMap.empty first (some (frontService twoTargets))).index second
    (some (frontService twoTargets))).index

end Dnsrecord

namespace V3

/-! ## Data model of `dynamicschema.go` -/

/-- The type `v3.DynamicSchema`; `St` is the type of its `Status`. -/
structure DynamicSchema (St : Type) where
  Namespace : String
  Name : String
  DeletionTimestamp : Option String
  Status : St
  deriving DecidableEq, Repr

/-- The receiver of `dynamicSchemaStatusHandler.sync` with its collaborators.
`handler` is the status-transition function; it receives a pointer to the copy of the object,
so its result carries the object as the handler left it, with the returned status and error.
`updateStatus` is `a.client.UpdateStatus`.  `setError` and `lastUpdated` are the methods
`SetError` and `LastUpdated` of `condition.Cond` (wrangler), as functions of the status they
modify; `semanticDeepEqual` is `equality.Semantic.DeepEqual`; `now` is the formatted
`time.Now()`. -/
structure StatusHandler (St : Type) where
  condition : String
  handler : DynamicSchema St → St → DynamicSchema St × St × Option Error
  updateStatus : DynamicSchema St → Except Error (DynamicSchema St)
  setError : String → St → String → Option Error → St
  lastUpdated : String → St → String → St
  semanticDeepEqual : St → St → Bool
  now : String

/-- What a call of `dynamicSchemaStatusHandler.sync` did: the returned object and error, and the
arguments of the `UpdateStatus` calls in order. -/
structure SyncResult (St : Type) where
  obj : Option (DynamicSchema St)
  err : Option Error
  updates : List (DynamicSchema St)

/-- The method `dynamicSchemaStatusHandler.sync`; `none` is the nil object. -/
def dynamicSchemaStatusHandler.sync {St : Type} (a : StatusHandler St) (_key : String)
    (obj : Option (DynamicSchema St)) : SyncResult St :=
  match obj with
  | none => ⟨none, none, []⟩
  | some obj0 =>
    let origStatus := obj0.Status
    match a.handler obj0 obj0.Status with
    | (obj, handlerStatus, err) =>
      let newStatus := if err.isSome then origStatus else handlerStatus
      let newStatus :=
        if a.condition ≠ "" then
          if IsConflict err then a.setError a.condition newStatus "" none
          else a.setError a.condition newStatus "" err
        else newStatus
      if !a.semanticDeepEqual origStatus newStatus then
        let newStatus :=
          if a.condition ≠ "" then a.lastUpdated a.condition newStatus a.now else newStatus
        let obj := { obj with Status := newStatus }
        match a.updateStatus obj with
        | .ok newObj => ⟨some newObj, err, [obj]⟩
        | .error newErr => ⟨some obj, if err.isNone then some newErr else err, [obj]⟩
      else ⟨some obj, err, []⟩

/-! ### Definitions used to state the properties of `dynamicschema.go` -/

/-- The prior status with the condition marker applied as `sync` applies it after a transition
error `err`: nothing when no marker is configured, else the marker's error field set (cleared
for a conflict) and its last-updated time stamped. -/
def revertedStatus {St : Type} (a : StatusHandler St) (prior : St) (err : Error) : St :=
  if a.condition ≠ "" then
    a.lastUpdated a.condition
      (a.setError a.condition prior "" (if IsConflict (some err) then none else some err)) a.now
  else prior

/-- The status that `sync` compares with the prior status after a transition error `err`: the
prior status, with the error field of the condition marker set when one is configured. -/
def markedStatus {St : Type} (a : StatusHandler St) (prior : St) (err : Error) : St :=
  if a.condition ≠ "" then
    a.setError a.condition prior "" (if IsConflict (some err) then none else some err)
  else prior

/-- A status with one field of its own and one condition, for concrete runs. -/
structure CondStatus where
  Fake : String
  condStatus : String
  condMessage : String
  condLastUpdated : String
  deriving DecidableEq, Repr

/-- The text of an error. -/
def errorText : Error → String
  | .notFound => "not found"
  | .conflict => "conflict"
  | .other msg => msg
  | .wrongFormat g => "wrong format for dns record [" ++ g ++ "]"
  | .wrapped c e => c ++ ": " ++ errorText e

/-- The method `condition.Cond.SetError` of wrangler on `CondStatus`: a nil error sets the
condition to "True" with an empty message, an error sets it to "False" with the error text. -/
def condSetError (_c : String) (s : CondStatus) (_reason : String) (err : Option Error) :
    CondStatus :=
  match err with
  | none => { s with condStatus := "True", condMessage := "" }
  | some e => { s with condStatus := "False", condMessage := errorText e }

/-- The method `condition.Cond.LastUpdated` of wrangler on `CondStatus`. -/
def condLastUpdated (_c : String) (s : CondStatus) (ts : String) : CondStatus :=
  { s with condLastUpdated := ts }

/-- A status handler for concrete runs on `CondStatus`: the transition function leaves the
object alone and returns `result` applied to the current status, `UpdateStatus` succeeds and
returns its argument, and statuses are compared field by field. -/
def condHandler (condition : String) (result : CondStatus → CondStatus × Option Error) :
    StatusHandler CondStatus :=
  { condition := condition
    handler := fun obj status => (obj, (result status).1, (result status).2)
    updateStatus := fun obj => .ok obj
    setError := condSetError
    lastUpdated := condLastUpdated
    semanticDeepEqual := fun s t => decide (s = t)
    now := "2024-01-01T00:00:00Z" }

/-- A `DynamicSchema` named `schema` whose condition has the status `cond`. -/
def schemaWith (cond : String) : DynamicSchema CondStatus :=
  { Namespace := "", Name := "schema", DeletionTimestamp := none,
    Status := { Fake := "v1", condStatus := cond, condMessage := "", condLastUpdated := "t0" } }

/-- A transition that computes a new status and fails. -/
def failingTransition (s : CondStatus) : CondStatus × Option Error :=
  ({ s with Fake := "computed" }, some (Error.other "boom"))

/-- A transition that computes a new status and fails with a wrapped conflict error. -/
def conflictTransition (s : CondStatus) : CondStatus × Option Error :=
  ({ s with Fake := "computed" }, some (Error.wrapped "apply" Error.conflict))

/-- A transition that returns the current status unchanged, without error. -/
def unchangedTransition (s : CondStatus) : CondStatus × Option Error := (s, none)

end V3

/-! ## Lemmas on the Go runtime values -/

theorem GoSlice.toList_goAppend {α : Type} (s xs : GoSlice α) :
    (goAppend s xs).toList = s.toList ++ xs.toList := by
  unfold goAppend
  cases h : xs.toList with
  | nil => simp
  | cons y ys => simp [GoSlice.toList]

namespace GoMap

variable {V : Type}

theorem lookup_filter_ne (l : List (String × V)) (k k' : String) (h : k' ≠ k) :
    (l.filter (fun e => e.1 ≠ k)).lookup k' = l.lookup k' := by
  induction l with
  | nil => rfl
  | cons e l ih =>
    obtain ⟨a, b⟩ := e
    by_cases hak : a = k
    · have hne : (k' == a) = false := by rw [hak]; simpa using h
      have hd : decide ((a, b).1 ≠ k) = false := by simpa using hak
      rw [List.filter_cons, hd, List.lookup_cons, hne]
      exact ih
    · have hd : decide ((a, b).1 ≠ k) = true := by simpa using hak
      rw [List.filter_cons, hd, if_pos rfl, List.lookup_cons, List.lookup_cons, ih]

theorem lookup_filter_self (l : List (String × V)) (k : String) :
    (l.filter (fun e => e.1 ≠ k)).lookup k = none := by
  induction l with
  | nil => rfl
  | cons e l ih =>
    obtain ⟨a, b⟩ := e
    by_cases hak : a = k
    · have hd : decide ((a, b).1 ≠ k) = false := by simpa using hak
      rw [List.filter_cons, hd]
      exact ih
    · have hne : (k == a) = false := by simpa using (Ne.symm hak)
      have hd : decide ((a, b).1 ≠ k) = true := by simpa using hak
      rw [List.filter_cons, hd, if_pos rfl, List.lookup_cons, hne]
      exact ih

theorem Load_empty (k : String) : (empty : GoMap V).Load k = none := rfl

theorem Load_Store_self (m : GoMap V) (k : String) (v : V) : (m.Store k v).Load k = some v := by
  simp [Load, Store, List.lookup_cons]

theorem Load_Store_ne (m : GoMap V) (k k' : String) (v : V) (h : k' ≠ k) :
    (m.Store k v).Load k' = m.Load k' := by
  have hne : (k' == k) = false := by simpa using h
  unfold Load Store
  rw [List.lookup_cons, hne]
  exact lookup_filter_ne _ _ _ h

theorem Load_Delete_self (m : GoMap V) (k : String) : (m.Delete k).Load k = none :=
  lookup_filter_self _ _

theorem Load_Delete_ne (m : GoMap V) (k k' : String) (h : k' ≠ k) :
    (m.Delete k).Load k' = m.Load k' :=
  lookup_filter_ne _ _ _ h

theorem lookup_eq_some_iff (l : List (String × V)) (hl : (l.map Prod.fst).Nodup)
    (k : String) (v : V) : l.lookup k = some v ↔ (k, v) ∈ l := by
  induction l with
  | nil => simp
  | cons e l ih =>
    obtain ⟨a, b⟩ := e
    rw [List.map_cons, List.nodup_cons] at hl
    by_cases hk : k = a
    · subst hk
      simp only [List.lookup_cons, beq_self_eq_true, List.mem_cons, Prod.mk.injEq, true_and]
      constructor
      · intro h
        exact Or.inl (Option.some.inj h).symm
      · rintro (h | h)
        · rw [h]
        · exact absurd (List.mem_map.2 ⟨(k, v), h, rfl⟩) hl.1
    · have hne : (k == a) = false := by simpa using hk
      simp [List.lookup_cons, hne, ih hl.2, hk]

theorem Load_eq_some_iff (m : GoMap V) (k : String) (v : V) :
    m.Load k = some v ↔ (k, v) ∈ m.entries :=
  lookup_eq_some_iff m.entries m.nodup k v

theorem mem_keys_of_Load (m : GoMap V) (k : String) (v : V) (h : m.Load k = some v) :
    k ∈ m.keys :=
  List.mem_map.2 ⟨(k, v), (m.Load_eq_some_iff k v).1 h, rfl⟩

theorem mem_keys_Store (m : GoMap V) (k k' : String) (v : V) (h : k' ∈ (m.Store k v).keys) :
    k' = k ∨ k' ∈ m.keys := by
  simp only [keys, Store, List.map_cons, List.mem_cons] at h
  rcases h with h | h
  · exact Or.inl h
  · obtain ⟨e, he, hk⟩ := List.mem_map.1 h
    exact Or.inr (List.mem_map.2 ⟨e, (List.mem_filter.1 he).1, hk⟩)

theorem mem_keys_Delete (m : GoMap V) (k k' : String) (h : k' ∈ (m.Delete k).keys) :
    k' ∈ m.keys ∧ k' ≠ k := by
  obtain ⟨e, he, hk⟩ := List.mem_map.1 h
  have h2 := List.mem_filter.1 he
  refine ⟨List.mem_map.2 ⟨e, h2.1, hk⟩, ?_⟩
  have := h2.2
  simp at this
  rw [← hk]
  exact this

theorem contains_empty (k : String) : (empty : GoMap V).contains k = false := rfl

theorem contains_Store (m : GoMap V) (k k' : String) (v : V) :
    (m.Store k v).contains k' = true ↔ k' = k ∨ m.contains k' = true := by
  unfold contains
  by_cases h : k' = k
  · subst h
    simp [Load_Store_self]
  · simp [Load_Store_ne m k k' v h, h]

end GoMap

/-! ## Lemmas on `strings.Split` -/

theorem splitChars_ne_nil (sep : Char) (cs : List Char) : splitChars sep cs ≠ [] := by
  cases cs with
  | nil => simp [splitChars]
  | cons c cs =>
    unfold splitChars
    split
    · simp
    · split <;> simp

theorem splitChars_of_not_mem (sep : Char) (cs : List Char) (h : sep ∉ cs) :
    splitChars sep cs = [cs] := by
  induction cs with
  | nil => rfl
  | cons c cs ih =>
    have hc : c ≠ sep := fun e => h (e ▸ List.mem_cons_self _ _)
    have hcs : sep ∉ cs := fun e => h (List.mem_cons_of_mem _ e)
    rw [splitChars, if_neg hc, ih hcs]

theorem splitChars_append_sep (sep : Char) (a rest : List Char) (h : sep ∉ a) :
    splitChars sep (a ++ sep :: rest) = a :: splitChars sep rest := by
  induction a with
  | nil => simp [splitChars]
  | cons c a ih =>
    have hc : c ≠ sep := fun e => h (e ▸ List.mem_cons_self _ _)
    have ha : sep ∉ a := fun e => h (List.mem_cons_of_mem _ e)
    rw [List.cons_append, splitChars, if_neg hc, ih ha]

theorem mem_decompose (sep : Char) (cs : List Char) (h : sep ∈ cs) :
    cs = cs.takeWhile (fun c => c ≠ sep) ++ sep :: (cs.dropWhile (fun c => c ≠ sep)).drop 1 := by
  induction cs with
  | nil => simp at h
  | cons c cs ih =>
    by_cases hc : c = sep
    · subst hc
      simp [List.takeWhile_cons, List.dropWhile_cons]
    · have hcs : sep ∈ cs := by
        rcases List.mem_cons.1 h with e | e
        · exact absurd e.symm hc
        · exact e
      have hd : decide (c ≠ sep) = true := by simpa using hc
      rw [List.takeWhile_cons, List.dropWhile_cons, hd, if_pos rfl, if_pos rfl, List.cons_append,
        ← ih hcs]

theorem not_mem_takeWhile_ne (sep : Char) (cs : List Char) :
    sep ∉ cs.takeWhile (fun c => c ≠ sep) := by
  intro h
  have := List.mem_takeWhile_imp h
  simp at this

theorem splitChars_of_mem (sep : Char) (cs : List Char) (h : sep ∈ cs) :
    splitChars sep cs = cs.takeWhile (fun c => c ≠ sep) ::
      splitChars sep ((cs.dropWhile (fun c => c ≠ sep)).drop 1) := by
  conv_lhs => rw [mem_decompose sep cs h]
  exact splitChars_append_sep sep _ _ (not_mem_takeWhile_ne sep cs)

theorem splitChars_length_lt_two (sep : Char) (cs : List Char) :
    (splitChars sep cs).length < 2 ↔ sep ∉ cs := by
  constructor
  · intro h hmem
    rw [splitChars_of_mem sep cs hmem] at h
    have hne := splitChars_ne_nil sep ((cs.dropWhile (fun c => c ≠ sep)).drop 1)
    cases hs : splitChars sep ((cs.dropWhile (fun c => c ≠ sep)).drop 1) with
    | nil => exact hne hs
    | cons x xs =>
      rw [hs] at h
      simp only [List.length_cons] at h
      omega
  · intro h
    rw [splitChars_of_not_mem sep cs h]
    simp

theorem strings_Split_length (s : String) (sep : Char) :
    (strings_Split s sep).length = (splitChars sep s.data).length := by
  simp [strings_Split]

namespace Dnsrecord

variable {S : Type}

/-! ## Lemmas on the target loop -/

theorem split_cases (record : String)
    (h : 2 ≤ (strings_Split (strings_TrimSpace record) ':').length) :
    ∃ ns service tl, strings_Split (strings_TrimSpace record) ':' = ns :: service :: tl := by
  cases hs : strings_Split (strings_TrimSpace record) ':' with
  | nil => rw [hs] at h; simp at h
  | cons a l =>
    cases l with
    | nil => rw [hs] at h; simp at h
    | cons b tl => exact ⟨a, b, tl, rfl⟩

theorem lookupArgs_of_split (record ns service : String) (tl : List String)
    (h : strings_Split (strings_TrimSpace record) ':' = ns :: service :: tl) :
    lookupArgs record = some (ns, service) := by
  simp [lookupArgs, h]

theorem lookupArgs_none (record : String)
    (h : (strings_Split (strings_TrimSpace record) ':').length < 2) :
    lookupArgs record = none := by
  unfold lookupArgs
  split
  · rename_i hs
    rw [hs] at h
    simp only [List.length_cons] at h
    omega
  · rfl

theorem resolveTargets_ok (env : Env S) (records : List String)
    (h : ∀ r ∈ records, 2 ≤ (strings_Split (strings_TrimSpace r) ':').length)
    (st : LoopState S) :
    ∃ st', resolveTargets env records st = (none, st') ∧
      st'.newEndpointSubsets.toList = st.newEndpointSubsets.toList ++
        (resolvedTargets env records).flatMap (fun ep => ep.Subsets.toList) ∧
      (∀ k, st'.targetEndpointUUIDs.contains k = true ↔
        (st.targetEndpointUUIDs.contains k = true ∨
          ∃ ep ∈ resolvedTargets env records, k = ep.Namespace ++ "/" ++ ep.Name)) ∧
      st'.gets = st.gets ++ records.filterMap lookupArgs := by
  induction records generalizing st with
  | nil => exact ⟨st, rfl, by simp [resolvedTargets], by simp [resolvedTargets], by simp⟩
  | cons r rest ih =>
    obtain ⟨ns, service, tl, hs⟩ := split_cases r (h r (List.mem_cons_self _ _))
    have hrest : ∀ r' ∈ rest, 2 ≤ (strings_Split (strings_TrimSpace r') ':').length :=
      fun r' hr' => h r' (List.mem_cons_of_mem _ hr')
    have hla := lookupArgs_of_split r ns service tl hs
    rw [resolveTargets]
    simp only [hs]
    cases hget : env.listerGet ns service with
    | error e =>
      obtain ⟨st', h1, h2, h3, h4⟩ := ih hrest { st with gets := st.gets ++ [(ns, service)] }
      refine ⟨st', h1, ?_, ?_, ?_⟩
      · rw [h2]; simp [resolvedTargets, List.filterMap_cons, hla, hget]
      · intro k; rw [h3 k]; simp [resolvedTargets, List.filterMap_cons, hla, hget]
      · rw [h4]; simp [List.filterMap_cons, hla]
    | ok ep =>
      by_cases hdel : ep.DeletionTimestamp.isSome = true
      · simp only [hdel, if_true]
        have hdn : ep.DeletionTimestamp ≠ none := by
          intro e; rw [e] at hdel; simp at hdel
        obtain ⟨st', h1, h2, h3, h4⟩ := ih hrest { st with gets := st.gets ++ [(ns, service)] }
        refine ⟨st', h1, ?_, ?_, ?_⟩
        · rw [h2]; simp [resolvedTargets, List.filterMap_cons, hla, hget, hdn]
        · intro k; rw [h3 k]; simp [resolvedTargets, List.filterMap_cons, hla, hget, hdn]
        · rw [h4]; simp [List.filterMap_cons, hla]
      · simp only [hdel]
        have hdn : ep.DeletionTimestamp = none := by
          cases hd : ep.DeletionTimestamp with
          | none => rfl
          | some t => rw [hd] at hdel; simp at hdel
        obtain ⟨st', h1, h2, h3, h4⟩ := ih hrest
          { newEndpointSubsets := goAppend st.newEndpointSubsets ep.Subsets
            targetEndpointUUIDs := st.targetEndpointUUIDs.Store (ep.Namespace ++ "/" ++ ep.Name) true
            gets := st.gets ++ [(ns, service)] }
        refine ⟨st', h1, ?_, ?_, ?_⟩
        · rw [h2]
          simp [resolvedTargets, List.filterMap_cons, hla, hget, hdn, GoSlice.toList_goAppend]
        · intro k
          rw [h3 k, GoMap.contains_Store]
          simp only [resolvedTargets, List.filterMap_cons, hla, hget, hdn, if_true,
            List.mem_cons]
          constructor
          · rintro ((h | h) | ⟨ep', hep', hk⟩)
            · exact Or.inr ⟨ep, Or.inl rfl, h⟩
            · exact Or.inl h
            · exact Or.inr ⟨ep', Or.inr hep', hk⟩
          · rintro (h | ⟨ep', hep' | hep', hk⟩)
            · exact Or.inl (Or.inr h)
            · exact Or.inl (Or.inl (hep' ▸ hk))
            · exact Or.inr ⟨ep', hep', hk⟩
        · rw [h4]; simp [List.filterMap_cons, hla]

theorem resolveTargets_malformed (env : Env S) (records : List String)
    (h : ∃ r ∈ records, (strings_Split (strings_TrimSpace r) ':').length < 2)
    (st : LoopState S) :
    ∃ groomed st', resolveTargets env records st = (some (Error.wrongFormat groomed), st') := by
  induction records generalizing st with
  | nil => obtain ⟨r, hr, _⟩ := h; simp at hr
  | cons r rest ih =>
    by_cases hr : (strings_Split (strings_TrimSpace r) ':').length < 2
    · refine ⟨strings_TrimSpace r, st, ?_⟩
      rw [resolveTargets]
      split
      · rename_i hs
        rw [hs] at hr
        simp only [List.length_cons] at hr
        omega
      · rfl
    · have hrest : ∃ r' ∈ rest, (strings_Split (strings_TrimSpace r') ':').length < 2 := by
        obtain ⟨r', hr', hlt⟩ := h
        rcases List.mem_cons.1 hr' with e | e
        · subst e; exact absurd hlt hr
        · exact ⟨r', e, hlt⟩
      obtain ⟨ns, service, tl, hs⟩ := split_cases r (by omega)
      rw [resolveTargets]
      simp only [hs]
      cases env.listerGet ns service with
      | error e => exact ih hrest _
      | ok ep =>
        by_cases hdel : ep.DeletionTimestamp.isSome = true
        · simp only [hdel, if_true]; exact ih hrest _
        · simp only [hdel]; exact ih hrest _

theorem writeEndpoints_index [DecidableEq S] (env : Env S) (idx : ReverseIndex) (key : String)
    (obj : Service) (st : LoopState S) :
    (writeEndpoints env idx key obj st).index = idx.Store key st.targetEndpointUUIDs := by
  unfold writeEndpoints
  cases env.listerGet obj.Namespace obj.Name with
  | error e =>
    by_cases hnf : IsNotFound e = true
    · simp only [hnf]
      cases env.create _ <;> rfl
    · simp [hnf]
  | ok ep =>
    by_cases heq : ep.Subsets = st.newEndpointSubsets
    · simp [heq]
    · simp only [heq, if_false]
      cases env.update _ <;> rfl

theorem reconcileEndpoints_eq [DecidableEq S] (env : Env S) (idx : ReverseIndex) (key : String)
    (obj : Service) (annotations : GoMap String) (value : String) (records : List String)
    (hann : obj.Annotations = some annotations)
    (hval : annotations.Load DNSAnnotation = some value)
    (hjson : env.unmarshal value = .ok records) :
    reconcileEndpoints env idx key obj =
      match resolveTargets env records initLoop with
      | (some err, st) => ⟨some err, idx, [], st.gets⟩
      | (none, st) => writeEndpoints env idx key obj st := by
  unfold reconcileEndpoints
  simp only [hann, hval, hjson]

theorem splitChars_head (sep : Char) (cs : List Char) :
    ∃ t, splitChars sep cs = cs.takeWhile (fun c => c ≠ sep) :: t := by
  by_cases h : sep ∈ cs
  · exact ⟨_, splitChars_of_mem sep cs h⟩
  · refine ⟨[], ?_⟩
    rw [splitChars_of_not_mem sep cs h]
    have : cs.takeWhile (fun c => c ≠ sep) = cs := by
      rw [List.takeWhile_eq_self_iff]
      intro c hc
      have : c ≠ sep := fun e => h (e ▸ hc)
      simpa using this
    rw [this]

theorem lookupArgs_eq_firstTwoFields (record : String) (p : String × String)
    (h : lookupArgs record = some p) : p = firstTwoFields record := by
  unfold lookupArgs at h
  have hmem : ':' ∈ (strings_TrimSpace record).data := by
    by_contra hn
    have := (splitChars_length_lt_two ':' _).2 hn
    rw [← strings_Split_length] at this
    split at h
    · rename_i hs
      rw [hs] at this
      simp only [List.length_cons] at this
      omega
    · cases h
  obtain ⟨t, ht⟩ := splitChars_head ':'
    (((strings_TrimSpace record).data.dropWhile (fun c => c ≠ ':')).drop 1)
  have hsplit : strings_Split (strings_TrimSpace record) ':' =
      (firstTwoFields record).1 :: (firstTwoFields record).2 :: t.map String.mk := by
    unfold strings_Split
    rw [splitChars_of_mem ':' _ hmem, ht]
    rfl
  rw [hsplit] at h
  simpa using h.symm

theorem filterMap_lookupArgs (records : List String)
    (h : ∀ r ∈ records, 2 ≤ (strings_Split (strings_TrimSpace r) ':').length) :
    records.filterMap lookupArgs = records.map firstTwoFields := by
  induction records with
  | nil => rfl
  | cons r rest ih =>
    obtain ⟨ns, service, tl, hs⟩ := split_cases r (h r (List.mem_cons_self _ _))
    have hla := lookupArgs_of_split r ns service tl hs
    have := lookupArgs_eq_firstTwoFields r _ hla
    rw [List.filterMap_cons, hla, List.map_cons, ih (fun r' hr' => h r' (List.mem_cons_of_mem _ hr')),
      this]

theorem writeEndpoints_gets [DecidableEq S] (env : Env S) (idx : ReverseIndex) (key : String)
    (obj : Service) (st : LoopState S) :
    (writeEndpoints env idx key obj st).gets = st.gets ++ [(obj.Namespace, obj.Name)] := by
  unfold writeEndpoints
  cases env.listerGet obj.Namespace obj.Name with
  | error e =>
    by_cases hnf : IsNotFound e = true
    · simp only [hnf]
      cases env.create _ <;> rfl
    · simp [hnf]
  | ok ep =>
    by_cases heq : ep.Subsets = st.newEndpointSubsets
    · simp [heq]
    · simp only [heq, if_false]
      cases env.update _ <;> rfl

theorem writeEndpoints_writes [DecidableEq S] (env : Env S) (idx : ReverseIndex) (key : String)
    (obj : Service) (st : LoopState S)
    (hget : ∀ e, env.listerGet obj.Namespace obj.Name = .error e → IsNotFound e = true) :
    (∀ w ∈ (writeEndpoints env idx key obj st).writes, w.ep.Subsets = st.newEndpointSubsets) ∧
    ((writeEndpoints env idx key obj st).writes = [] →
      ∃ ep, env.listerGet obj.Namespace obj.Name = .ok ep ∧
        ep.Subsets = st.newEndpointSubsets) ∧
    (writeEndpoints env idx key obj st).writes.length ≤ 1 := by
  unfold writeEndpoints
  cases hg : env.listerGet obj.Namespace obj.Name with
  | error e =>
    have hnf := hget e hg
    simp only [hnf]
    cases env.create _ <;> simp [Write.ep]
  | ok ep =>
    by_cases heq : ep.Subsets = st.newEndpointSubsets
    · simp [heq]
    · simp only [heq, if_false]
      cases env.update _ <;> simp [Write.ep]

/-! ## The claims on `Controller.reconcileEndpoints` -/

/-- C1: for a front service whose annotation parses to target references that all have at
least two colon-delimited parts, and a lister whose lookup of the front service's endpoint
does not fail with an error other than not-found, the target loop runs to its end and the
subsets it computes are the concatenation, in annotation order, of the subsets of exactly the
targets that resolve (lookup succeeds, `DeletionTimestamp` nil); every `Create` or `Update`
the pass makes carries these subsets, at most one write is made, and no write is made only
when the existing endpoint already has them. -/
theorem reconcileEndpoints_subsets_concat [DecidableEq S] (env : Env S) (idx : ReverseIndex)
    (key : String) (obj : Service) (annotations : GoMap String) (value : String)
    (records : List String)
    (hann : obj.Annotations = some annotations)
    (hval : annotations.Load DNSAnnotation = some value)
    (hjson : env.unmarshal value = .ok records)
    (hparts : ∀ r ∈ records, 2 ≤ (strings_Split (strings_TrimSpace r) ':').length)
    (hget : ∀ e, env.listerGet obj.Namespace obj.Name = .error e → IsNotFound e = true) :
    ∃ st, resolveTargets env records initLoop = (none, st) ∧
      st.newEndpointSubsets.toList =
        (resolvedTargets env records).flatMap (fun ep => ep.Subsets.toList) ∧
      (∀ w ∈ (reconcileEndpoints env idx key obj).writes,
        w.ep.Subsets = st.newEndpointSubsets) ∧
      ((reconcileEndpoints env idx key obj).writes = [] →
        ∃ ep, env.listerGet obj.Namespace obj.Name = .ok ep ∧
          ep.Subsets = st.newEndpointSubsets) ∧
      (reconcileEndpoints env idx key obj).writes.length ≤ 1 := by
  obtain ⟨st, h1, h2, _, _⟩ := resolveTargets_ok env records hparts initLoop
  have hr := reconcileEndpoints_eq env idx key obj annotations value records hann hval hjson
  rw [h1] at hr
  simp only at hr
  refine ⟨st, h1, ?_, ?_⟩
  · rw [h2]; simp [initLoop, GoSlice.toList]
  · rw [hr]
    exact writeEndpoints_writes env idx key obj st hget

/-- C3: when the annotation list has an entry that, trimmed, has fewer than two
colon-delimited parts, at any position, `reconcileEndpoints` returns the wrong-format error,
makes no `Create` or `Update`, and leaves the reverse index exactly as it was. -/
theorem reconcileEndpoints_malformed_entry [DecidableEq S] (env : Env S) (idx : ReverseIndex)
    (key : String) (obj : Service) (annotations : GoMap String) (value : String)
    (records : List String)
    (hann : obj.Annotations = some annotations)
    (hval : annotations.Load DNSAnnotation = some value)
    (hjson : env.unmarshal value = .ok records)
    (hbad : ∃ r ∈ records, (strings_Split (strings_TrimSpace r) ':').length < 2) :
    (∃ groomed, (reconcileEndpoints env idx key obj).err = some (Error.wrongFormat groomed)) ∧
      (reconcileEndpoints env idx key obj).writes = [] ∧
      (reconcileEndpoints env idx key obj).index = idx := by
  obtain ⟨groomed, st, h1⟩ := resolveTargets_malformed env records hbad initLoop
  have hr := reconcileEndpoints_eq env idx key obj annotations value records hann hval hjson
  rw [h1] at hr
  simp only at hr
  rw [hr]
  exact ⟨⟨groomed, rfl⟩, rfl, rfl⟩

/-- C4: for a front service with a well-formed annotation, after `reconcileEndpoints` the
reverse index holds under the front service's key a target set whose keys are exactly the
`namespace/name` keys of the targets that resolved, every other entry is unchanged, and this
holds for every behaviour of the later endpoint lookup, `Create` and `Update`. -/
theorem reconcileEndpoints_stores_targets [DecidableEq S] (env : Env S) (idx : ReverseIndex)
    (key : String) (obj : Service) (annotations : GoMap String) (value : String)
    (records : List String)
    (hann : obj.Annotations = some annotations)
    (hval : annotations.Load DNSAnnotation = some value)
    (hjson : env.unmarshal value = .ok records)
    (hparts : ∀ r ∈ records, 2 ≤ (strings_Split (strings_TrimSpace r) ':').length) :
    ∃ targets, (reconcileEndpoints env idx key obj).index.Load key = some targets ∧
      (∀ k, targets.contains k = true ↔
        ∃ ep ∈ resolvedTargets env records, k = ep.Namespace ++ "/" ++ ep.Name) ∧
      (∀ k', k' ≠ key → (reconcileEndpoints env idx key obj).index.Load k' = idx.Load k') := by
  obtain ⟨st, h1, _, h3, _⟩ := resolveTargets_ok env records hparts initLoop
  have hr := reconcileEndpoints_eq env idx key obj annotations value records hann hval hjson
  rw [h1] at hr
  simp only at hr
  rw [hr, writeEndpoints_index]
  refine ⟨st.targetEndpointUUIDs, GoMap.Load_Store_self _ _ _, ?_, ?_⟩
  · intro k
    rw [h3 k]
    simp [initLoop, GoMap.contains_empty]
  · intro k' hk'
    exact GoMap.Load_Store_ne _ _ _ _ hk'

/-- C10 as amended: for target references that all have at least two colon-delimited parts,
the lister is called, in annotation order, with the text of the trimmed reference before its
first colon as namespace and the text between its first and its second colon (the whole
remainder when there is no second colon) as name, and then once for the front service. -/
theorem reconcileEndpoints_lookup_fields [DecidableEq S] (env : Env S) (idx : ReverseIndex)
    (key : String) (obj : Service) (annotations : GoMap String) (value : String)
    (records : List String)
    (hann : obj.Annotations = some annotations)
    (hval : annotations.Load DNSAnnotation = some value)
    (hjson : env.unmarshal value = .ok records)
    (hparts : ∀ r ∈ records, 2 ≤ (strings_Split (strings_TrimSpace r) ':').length) :
    (reconcileEndpoints env idx key obj).gets =
      records.map firstTwoFields ++ [(obj.Namespace, obj.Name)] := by
  obtain ⟨st, h1, _, _, h4⟩ := resolveTargets_ok env records hparts initLoop
  have hr := reconcileEndpoints_eq env idx key obj annotations value records hann hval hjson
  rw [h1] at hr
  simp only at hr
  rw [hr, writeEndpoints_gets, h4, filterMap_lookupArgs records hparts]
  simp [initLoop]

theorem twoTargets_parts :
    ∀ r ∈ ["ns1:svcA", "ns2:svcB"], 2 ≤ (strings_Split (strings_TrimSpace r) ':').length := by
  decide

/-- Witness of C1 at the targets `ns1:svcA`, `ns2:svcB`: with both found the pass writes the
subsets of `svcA` followed by those of `svcB`; with `svcA` not found it creates the endpoint of
`ns/front` with the subsets of `svcB` only. -/
theorem reconcileEndpoints_subsets_concat_witness :
    (reconcileEndpoints envBoth GoMap.empty "ns/front" (frontService twoTargets)).writes.map
        (fun w => w.ep.Subsets) = [GoSlice.mk ["a1", "b1", "b2"]] ∧
    (reconcileEndpoints envOnlyB GoMap.empty "ns/front" (frontService twoTargets)).writes =
        [Write.create
          { Namespace := "ns", Name := "front", DeletionTimestamp := none,
            OwnerReferences := [⟨"v1", "Service", "front", "uid-1", some true⟩],
            Subsets := GoSlice.mk ["b1", "b2"] }] ∧
      ∃ st, resolveTargets envOnlyB ["ns1:svcA", "ns2:svcB"] initLoop = (none, st) ∧
        st.newEndpointSubsets.toList =
          (resolvedTargets envOnlyB ["ns1:svcA", "ns2:svcB"]).flatMap
            (fun ep => ep.Subsets.toList) ∧
        (∀ w ∈ (reconcileEndpoints envOnlyB GoMap.empty "ns/front"
            (frontService twoTargets)).writes, w.ep.Subsets = st.newEndpointSubsets) ∧
        ((reconcileEndpoints envOnlyB GoMap.empty "ns/front"
            (frontService twoTargets)).writes = [] →
          ∃ ep, envOnlyB.listerGet (frontService twoTargets).Namespace
              (frontService twoTargets).Name = .ok ep ∧
            ep.Subsets = st.newEndpointSubsets) ∧
        (reconcileEndpoints envOnlyB GoMap.empty "ns/front"
          (frontService twoTargets)).writes.length ≤ 1 :=
  ⟨by decide, by decide,
    reconcileEndpoints_subsets_concat envOnlyB GoMap.empty "ns/front" (frontService twoTargets)
      (GoMap.empty.Store DNSAnnotation twoTargets) twoTargets ["ns1:svcA", "ns2:svcB"]
      rfl (by decide) rfl twoTargets_parts
      (by intro e h; cases h; rfl)⟩

/-- Witness of C3 at the references `ns2:svcB`, `justonepart`, with a previous entry for the
front service in the reverse index. -/
theorem reconcileEndpoints_malformed_entry_witness :
    (∃ groomed, (reconcileEndpoints envMalformed
        (GoMap.empty.Store "ns/front" (GoMap.empty.Store "ns9/old" true)) "ns/front"
        (frontService "[\"ns2:svcB\",\"justonepart\"]")).err =
          some (Error.wrongFormat groomed)) ∧
      (reconcileEndpoints envMalformed
        (GoMap.empty.Store "ns/front" (GoMap.empty.Store "ns9/old" true)) "ns/front"
        (frontService "[\"ns2:svcB\",\"justonepart\"]")).writes = [] ∧
      (reconcileEndpoints envMalformed
        (GoMap.empty.Store "ns/front" (GoMap.empty.Store "ns9/old" true)) "ns/front"
        (frontService "[\"ns2:svcB\",\"justonepart\"]")).index =
          GoMap.empty.Store "ns/front" (GoMap.empty.Store "ns9/old" true) :=
  reconcileEndpoints_malformed_entry envMalformed _ "ns/front"
    (frontService "[\"ns2:svcB\",\"justonepart\"]")
    (GoMap.empty.Store DNSAnnotation "[\"ns2:svcB\",\"justonepart\"]")
    "[\"ns2:svcB\",\"justonepart\"]" ["ns2:svcB", "justonepart"] rfl (by decide) rfl
    ⟨"justonepart", by decide, by decide⟩

/-- Witness of C4 at the targets `ns1:svcA`, `ns2:svcB` with `svcA` not found. -/
theorem reconcileEndpoints_stores_targets_witness :
    ((reconcileEndpoints envOnlyB GoMap.empty "ns/front"
        (frontService twoTargets)).index.Load "ns/front").map GoMap.keys =
        some ["ns2/svcB"] ∧
      ∃ targets, (reconcileEndpoints envOnlyB GoMap.empty "ns/front"
          (frontService twoTargets)).index.Load "ns/front" = some targets ∧
        (∀ k, targets.contains k = true ↔
          ∃ ep ∈ resolvedTargets envOnlyB ["ns1:svcA", "ns2:svcB"],
            k = ep.Namespace ++ "/" ++ ep.Name) ∧
        (∀ k', k' ≠ "ns/front" → (reconcileEndpoints envOnlyB GoMap.empty "ns/front"
          (frontService twoTargets)).index.Load k' = (GoMap.empty : ReverseIndex).Load k') :=
  ⟨by decide,
    reconcileEndpoints_stores_targets envOnlyB GoMap.empty "ns/front" (frontService twoTargets)
      (GoMap.empty.Store DNSAnnotation twoTargets) twoTargets ["ns1:svcA", "ns2:svcB"]
      rfl (by decide) rfl twoTargets_parts⟩

/-- Counterexample to C10 as stated: for the reference `a:b:c` the lister is called with
namespace `a` and name `b`, not with the remainder `b:c` after the first colon, and the
subsets aggregated are those of `a/b`. -/
theorem reconcileEndpoints_split_once_counterexample :
    (reconcileEndpoints envThreeParts GoMap.empty "ns/front"
        (frontService "[\"a:b:c\"]")).gets = [("a", "b"), ("ns", "front")] ∧
      splitOnce "a:b:c" = ("a", "b:c") ∧
      ((reconcileEndpoints envThreeParts GoMap.empty "ns/front"
        (frontService "[\"a:b:c\"]")).writes.map (fun w => w.ep.Subsets)) =
          [GoSlice.mk ["short"]] := by
  decide

/-- Witness of C10 as amended at the reference `a:b:c`. -/
theorem reconcileEndpoints_lookup_fields_witness :
    firstTwoFields "a:b:c" = ("a", "b") ∧
      (reconcileEndpoints envThreeParts GoMap.empty "ns/front"
        (frontService "[\"a:b:c\"]")).gets =
        ["a:b:c"].map firstTwoFields ++
          [((frontService "[\"a:b:c\"]").Namespace, (frontService "[\"a:b:c\"]").Name)] :=
  ⟨by decide,
    reconcileEndpoints_lookup_fields envThreeParts GoMap.empty "ns/front"
      (frontService "[\"a:b:c\"]") (GoMap.empty.Store DNSAnnotation "[\"a:b:c\"]")
      "[\"a:b:c\"]" ["a:b:c"] rfl (by decide) rfl (by decide)⟩

/-! ## Lemmas on front-service keys and the router -/

theorem slash_data : ("/" : String).data = ['/'] := rfl

theorem join_data (ns name : String) :
    (ns ++ "/" ++ name).data = ns.data ++ '/' :: name.data := by
  simp [String.data_append, slash_data]

theorem keyParts_join (ns name : String) (h1 : '/' ∉ ns.data) (h2 : '/' ∉ name.data) :
    keyParts (ns ++ "/" ++ name) = some (ns, name) := by
  unfold keyParts strings_Split
  rw [join_data, splitChars_append_sep '/' _ _ h1, splitChars_of_not_mem '/' _ h2]
  rfl

theorem namespacedKey_join (ns name : String) (h : namespacedKey (ns ++ "/" ++ name)) :
    '/' ∉ ns.data ∧ '/' ∉ name.data := by
  unfold namespacedKey at h
  rw [join_data, List.count_append, List.count_cons_self] at h
  constructor
  · intro hm
    have := List.count_pos_iff.2 hm
    omega
  · intro hm
    have := List.count_pos_iff.2 hm
    omega

theorem namespacedKey_decompose (k : String) (h : namespacedKey k) :
    ∃ a b, k = a ++ "/" ++ b ∧ '/' ∉ a.data ∧ '/' ∉ b.data := by
  have hmem : '/' ∈ k.data := by
    apply List.count_pos_iff.1
    unfold namespacedKey at h
    omega
  have hd := mem_decompose '/' k.data hmem
  have hk : k = String.mk (k.data.takeWhile (fun c => c ≠ '/')) ++ "/" ++
      String.mk ((k.data.dropWhile (fun c => c ≠ '/')).drop 1) := by
    apply String.ext
    rw [join_data]
    exact hd
  refine ⟨_, _, hk, ?_⟩
  rw [hk] at h
  exact namespacedKey_join _ _ h

theorem keyParts_of_namespaced (k : String) (h : namespacedKey k) :
    ∃ p, keyParts k = some p ∧ k = p.1 ++ "/" ++ p.2 := by
  obtain ⟨a, b, hk, ha, hb⟩ := namespacedKey_decompose k h
  exact ⟨(a, b), hk ▸ keyParts_join a b ha hb, hk⟩

theorem keyParts_of_hasSlash (k : String) (h : hasSlash k) : ∃ p, keyParts k = some p := by
  unfold keyParts strings_Split
  rw [splitChars_of_mem '/' k.data h]
  obtain ⟨t, ht⟩ := splitChars_head '/' ((k.data.dropWhile (fun c => c ≠ '/')).drop 1)
  rw [ht]
  exact ⟨_, rfl⟩

theorem servicesToReconcile_foldl (l : List (String × TargetSet)) (key : String)
    (acc : List String) :
    l.foldl (fun acc e => if e.2.contains key then acc ++ [e.1] else acc) acc =
      acc ++ (l.filter (fun e => e.2.contains key)).map Prod.fst := by
  induction l generalizing acc with
  | nil => simp
  | cons e l ih =>
    rw [List.foldl_cons, ih, List.filter_cons]
    by_cases h : e.2.contains key = true
    · simp [h]
    · simp [h]

theorem servicesToReconcile_eq (idx : ReverseIndex) (key : String) :
    servicesToReconcile idx key =
      (idx.entries.filter (fun e => e.2.contains key)).map Prod.fst := by
  unfold servicesToReconcile
  rw [servicesToReconcile_foldl]
  simp

theorem mem_servicesToReconcile (idx : ReverseIndex) (key k : String) :
    k ∈ servicesToReconcile idx key ↔
      ∃ targets, idx.Load k = some targets ∧ targets.contains key = true := by
  rw [servicesToReconcile_eq]
  constructor
  · intro h
    obtain ⟨e, he, hk⟩ := List.mem_map.1 h
    obtain ⟨he1, he2⟩ := List.mem_filter.1 he
    refine ⟨e.2, ?_, he2⟩
    rw [GoMap.Load_eq_some_iff, ← hk]
    exact he1
  · rintro ⟨targets, hl, hc⟩
    rw [GoMap.Load_eq_some_iff] at hl
    exact List.mem_map.2 ⟨(k, targets), List.mem_filter.2 ⟨hl, hc⟩, rfl⟩

theorem servicesToReconcile_nodup (idx : ReverseIndex) (key : String) :
    (servicesToReconcile idx key).Nodup := by
  rw [servicesToReconcile_eq]
  exact ((List.filter_sublist idx.entries).map Prod.fst).nodup idx.nodup

theorem servicesToReconcile_subset (idx : ReverseIndex) (key k : String)
    (h : k ∈ servicesToReconcile idx key) : k ∈ idx.keys := by
  obtain ⟨targets, hl, _⟩ := (mem_servicesToReconcile idx key k).1 h
  exact GoMap.mem_keys_of_Load idx k targets hl

theorem enqueueAll_ok (ks : List String) (h : ∀ k ∈ ks, ∃ p, keyParts k = some p)
    (acc : List (String × String)) :
    enqueueAll ks acc = (none, acc ++ ks.filterMap keyParts) := by
  induction ks generalizing acc with
  | nil => simp [enqueueAll]
  | cons k ks ih =>
    obtain ⟨p, hp⟩ := h k (List.mem_cons_self _ _)
    have hks : ∀ k' ∈ ks, ∃ p, keyParts k' = some p :=
      fun k' hk' => h k' (List.mem_cons_of_mem _ hk')
    rw [List.filterMap_cons, hp]
    unfold keyParts at hp
    rw [enqueueAll]
    split at hp
    · rename_i ns serviceName tl hs
      simp only [hs]
      rw [ih hks]
      cases hp
      simp
    · cases hp

theorem count_filterMap_keyParts (ks : List String) (h : ∀ k ∈ ks, namespacedKey k)
    (ns name : String) (hns : '/' ∉ ns.data) (hname : '/' ∉ name.data) :
    (ks.filterMap keyParts).count (ns, name) = ks.count (ns ++ "/" ++ name) := by
  induction ks with
  | nil => rfl
  | cons k ks ih =>
    obtain ⟨p, hp, hk⟩ := keyParts_of_namespaced k (h k (List.mem_cons_self _ _))
    have ih' := ih (fun k' hk' => h k' (List.mem_cons_of_mem _ hk'))
    rw [List.filterMap_cons, hp]
    simp only [List.count_cons, ih']
    by_cases he : k = ns ++ "/" ++ name
    · have hp' : p = (ns, name) := by
        have := keyParts_join ns name hns hname
        rw [← he, hp] at this
        exact Option.some.inj this
      simp [he, hp']
    · have hp' : p ≠ (ns, name) := by
        intro e
        apply he
        rw [hk, e]
      simp [he, hp']

theorem route_eq (idx : ReverseIndex) (key : String)
    (h : ∀ k ∈ servicesToReconcile idx key, ∃ p, keyParts k = some p) :
    (reconcileServicesForEndpoint idx key).fault = none ∧
      (reconcileServicesForEndpoint idx key).enqueued =
        (servicesToReconcile idx key).filterMap keyParts := by
  unfold reconcileServicesForEndpoint
  rw [enqueueAll_ok _ h]
  simp

theorem selected_keyParts (idx : ReverseIndex) (key : String)
    (hsel : ∀ k ∈ servicesToReconcile idx key, namespacedKey k) :
    ∀ k ∈ servicesToReconcile idx key, ∃ p, keyParts k = some p := fun k hk => by
  obtain ⟨p, hp, _⟩ := keyParts_of_namespaced k (hsel k hk)
  exact ⟨p, hp⟩

theorem route_mem (idx : ReverseIndex) (key : String)
    (hsel : ∀ k ∈ servicesToReconcile idx key, namespacedKey k) (p : String × String)
    (hp : p ∈ (reconcileServicesForEndpoint idx key).enqueued) :
    p.1 ++ "/" ++ p.2 ∈ servicesToReconcile idx key := by
  rw [(route_eq idx key (selected_keyParts idx key hsel)).2] at hp
  obtain ⟨k, hk, hkp⟩ := List.mem_filterMap.1 hp
  obtain ⟨p', hp', hjoin⟩ := keyParts_of_namespaced k (hsel k hk)
  rw [hkp] at hp'
  cases hp'
  rw [← hjoin]
  exact hk

theorem route_count (idx : ReverseIndex) (key : String)
    (hsel : ∀ k ∈ servicesToReconcile idx key, namespacedKey k) (ns name : String)
    (targets : TargetSet) (hl : idx.Load (ns ++ "/" ++ name) = some targets) :
    (reconcileServicesForEndpoint idx key).enqueued.count (ns, name) =
      if targets.contains key then 1 else 0 := by
  by_cases hc : targets.contains key = true
  · rw [if_pos hc]
    have hm : ns ++ "/" ++ name ∈ servicesToReconcile idx key :=
      (mem_servicesToReconcile idx key _).2 ⟨targets, hl, hc⟩
    obtain ⟨hns, hname⟩ := namespacedKey_join ns name (hsel _ hm)
    rw [(route_eq idx key (selected_keyParts idx key hsel)).2,
      count_filterMap_keyParts _ hsel ns name hns hname]
    exact List.count_eq_one_of_mem (servicesToReconcile_nodup idx key) hm
  · rw [if_neg hc]
    apply List.count_eq_zero_of_not_mem
    intro hm
    have hm' := route_mem idx key hsel (ns, name) hm
    obtain ⟨targets', hl', hc'⟩ := (mem_servicesToReconcile idx key _).1 hm'
    simp only at hl'
    rw [hl] at hl'
    cases hl'
    exact hc hc'

/-! ## The claims on the router and on deletion -/

/-- Counterexample to C5 as stated: with an entry stored under the key `foo` beside the one
of `ns/front`, both depending on `ns2/svcB`, the call for `ns2/svcB` ends in the index fault
in whichever order the scan visits the two entries, and when `foo` is visited first
`ns/front` is not enqueued at all; with entries under `a/b` and `a/b/c` the front service
`a/b` is enqueued twice. -/
theorem reconcileServicesForEndpoint_enqueues_counterexample :
    (reconcileServicesForEndpoint (indexAfter "ns/front" "foo") "ns2/svcB").fault =
        some Fault.indexOutOfRange ∧
      (reconcileServicesForEndpoint (indexAfter "foo" "ns/front") "ns2/svcB").fault =
        some Fault.indexOutOfRange ∧
      ((indexAfter "ns/front" "foo").Load "ns/front").map (fun t => t.contains "ns2/svcB") =
        some true ∧
      (reconcileServicesForEndpoint (indexAfter "ns/front" "foo") "ns2/svcB").enqueued.count
        ("ns", "front") = 0 ∧
      (reconcileServicesForEndpoint (indexAfter "a/b" "a/b/c") "ns2/svcB").enqueued.count
        ("a", "b") = 2 := by
  decide

/-- C5 as amended: for every reverse index and every endpoint key,
`reconcileServicesForEndpoint` leaves the reverse index unchanged and its scan selects each
front-service key whose target set contains the endpoint key exactly once, and no other key;
when every key the scan selects has the form `namespace/name`, it returns, having enqueued
each front service of the index exactly once when its target set contains the key and not at
all when it does not, and nothing else. -/
theorem reconcileServicesForEndpoint_enqueues_dependents (idx : ReverseIndex) (key : String) :
    (reconcileServicesForEndpoint idx key).index = idx ∧
      (servicesToReconcile idx key).Nodup ∧
      (∀ k, k ∈ servicesToReconcile idx key ↔
        ∃ targets, idx.Load k = some targets ∧ targets.contains key = true) ∧
      ((∀ k ∈ servicesToReconcile idx key, namespacedKey k) →
        (reconcileServicesForEndpoint idx key).fault = none ∧
        (∀ ns name targets, idx.Load (ns ++ "/" ++ name) = some targets →
          (reconcileServicesForEndpoint idx key).enqueued.count (ns, name) =
            if targets.contains key then 1 else 0) ∧
        (∀ p ∈ (reconcileServicesForEndpoint idx key).enqueued,
          ∃ targets, idx.Load (p.1 ++ "/" ++ p.2) = some targets ∧
            targets.contains key = true)) := by
  refine ⟨rfl, servicesToReconcile_nodup idx key, mem_servicesToReconcile idx key, ?_⟩
  intro hsel
  exact ⟨(route_eq idx key (selected_keyParts idx key hsel)).1, route_count idx key hsel,
    fun p hp => (mem_servicesToReconcile idx key _).1 (route_mem idx key hsel p hp)⟩

theorem indexTwoFronts_selected :
    ∀ k ∈ servicesToReconcile indexTwoFronts "ns2/svcB", namespacedKey k := by decide

/-- Witness of C5 as amended: a change of `ns2/svcB` enqueues `ns/front` and `ns/other`, once
each, and not `ns/third`. -/
theorem reconcileServicesForEndpoint_enqueues_dependents_witness :
    (reconcileServicesForEndpoint indexTwoFronts "ns2/svcB").enqueued =
        [("ns", "other"), ("ns", "front")] ∧
      (reconcileServicesForEndpoint indexTwoFronts "ns2/svcB").fault = none ∧
      (∀ ns name targets, indexTwoFronts.Load (ns ++ "/" ++ name) = some targets →
        (reconcileServicesForEndpoint indexTwoFronts "ns2/svcB").enqueued.count (ns, name) =
          if targets.contains "ns2/svcB" then 1 else 0) ∧
      (∀ p ∈ (reconcileServicesForEndpoint indexTwoFronts "ns2/svcB").enqueued,
        ∃ targets, indexTwoFronts.Load (p.1 ++ "/" ++ p.2) = some targets ∧
          targets.contains "ns2/svcB" = true) :=
  ⟨by decide,
    (reconcileServicesForEndpoint_enqueues_dependents indexTwoFronts "ns2/svcB").2.2.2
      indexTwoFronts_selected⟩

theorem sync_of_deleted [DecidableEq S] (env : Env S) (idx : ReverseIndex) (key : String)
    (obj : Option Service)
    (hdel : obj = none ∨ ∃ o, obj = some o ∧ o.DeletionTimestamp ≠ none) :
    sync env idx key obj = ⟨none, idx.Delete key, [], []⟩ := by
  rcases hdel with h | ⟨o, h, hd⟩
  · subst h; rfl
  · subst h
    cases hdt : o.DeletionTimestamp with
    | none => exact absurd hdt hd
    | some t => simp [sync, hdt]

/-- Counterexample to C6 as stated: with entries under `ns/front` and `ns/front/x`, both
depending on `ns2/svcB`, `Controller.sync` with a nil object removes the entry of `ns/front`,
and a change of `ns2/svcB` afterwards still enqueues the front service `ns/front`: the key
`ns/front/x` splits to the same namespace and name. -/
theorem sync_deleted_counterexample :
    (sync envOnlyB (indexAfter "ns/front" "ns/front/x") "ns/front" none).index.keys =
        ["ns/front/x"] ∧
      (reconcileServicesForEndpoint
        (sync envOnlyB (indexAfter "ns/front" "ns/front/x") "ns/front" none).index
        "ns2/svcB").enqueued = [("ns", "front")] := by
  decide

/-- C6 as amended: `Controller.sync` called with a nil object or an object whose
`DeletionTimestamp` is set returns nil, makes no endpoint write, removes the key's
reverse-index entry and leaves every other entry unchanged; afterwards, for any endpoint key,
the scan of the router does not select the deleted key, and when every key the scan selects
has the form `namespace/name` the router does not enqueue the deleted front service. -/
theorem sync_deleted_removes_entry [DecidableEq S] (env : Env S) (idx : ReverseIndex)
    (key : String) (obj : Option Service)
    (hdel : obj = none ∨ ∃ o, obj = some o ∧ o.DeletionTimestamp ≠ none) :
    (sync env idx key obj).err = none ∧
      (sync env idx key obj).writes = [] ∧
      (sync env idx key obj).index.Load key = none ∧
      (∀ k', k' ≠ key → (sync env idx key obj).index.Load k' = idx.Load k') ∧
      (∀ epKey, key ∉ servicesToReconcile (sync env idx key obj).index epKey) ∧
      (∀ epKey,
        (∀ k ∈ servicesToReconcile (sync env idx key obj).index epKey, namespacedKey k) →
        ∀ ns name, key = ns ++ "/" ++ name →
          (ns, name) ∉
            (reconcileServicesForEndpoint (sync env idx key obj).index epKey).enqueued) := by
  rw [sync_of_deleted env idx key obj hdel]
  have hnot : ∀ epKey, key ∉ servicesToReconcile (idx.Delete key) epKey := by
    intro epKey hm
    obtain ⟨targets, hl, _⟩ := (mem_servicesToReconcile _ epKey key).1 hm
    rw [GoMap.Load_Delete_self] at hl
    cases hl
  refine ⟨rfl, rfl, GoMap.Load_Delete_self idx key,
    fun k' hk' => GoMap.Load_Delete_ne idx key k' hk', hnot, ?_⟩
  intro epKey hsel ns name hkey hm
  have := route_mem (idx.Delete key) epKey hsel (ns, name) hm
  simp only at this
  rw [← hkey] at this
  exact hnot epKey this

/-- Witness of C6 as amended: deleting `ns/front` from an index where it depends on
`ns2/svcB`. -/
theorem sync_deleted_removes_entry_witness :
    (reconcileServicesForEndpoint
        (sync envOnlyB indexTwoFronts "ns/front" none).index "ns2/svcB").enqueued =
        [("ns", "other")] ∧
      (∀ k ∈ servicesToReconcile (sync envOnlyB indexTwoFronts "ns/front" none).index
        "ns2/svcB", namespacedKey k) ∧
      (sync envOnlyB indexTwoFronts "ns/front" none).err = none ∧
      (sync envOnlyB indexTwoFronts "ns/front" none).writes = [] ∧
      (sync envOnlyB indexTwoFronts "ns/front" none).index.Load "ns/front" = none ∧
      (∀ k', k' ≠ "ns/front" →
        (sync envOnlyB indexTwoFronts "ns/front" none).index.Load k' =
          indexTwoFronts.Load k') ∧
      (∀ epKey, "ns/front" ∉
        servicesToReconcile (sync envOnlyB indexTwoFronts "ns/front" none).index epKey) ∧
      (∀ epKey,
        (∀ k ∈ servicesToReconcile (sync envOnlyB indexTwoFronts "ns/front" none).index epKey,
          namespacedKey k) →
        ∀ ns name, "ns/front" = ns ++ "/" ++ name →
          (ns, name) ∉ (reconcileServicesForEndpoint
            (sync envOnlyB indexTwoFronts "ns/front" none).index epKey).enqueued) :=
  ⟨by decide, by decide,
    sync_deleted_removes_entry envOnlyB indexTwoFronts "ns/front" none (Or.inl rfl)⟩

/-! ## Reachable reverse-index states -/

theorem reconcileEndpoints_index_cases [DecidableEq S] (env : Env S) (idx : ReverseIndex)
    (key : String) (obj : Service) :
    (reconcileEndpoints env idx key obj).index = idx ∨
      ∃ targets, (reconcileEndpoints env idx key obj).index = idx.Store key targets := by
  unfold reconcileEndpoints
  split
  · exact Or.inl rfl
  · split
    · exact Or.inl rfl
    · split
      · exact Or.inl rfl
      · split
        · exact Or.inl rfl
        · exact Or.inr ⟨_, writeEndpoints_index env idx key obj _⟩

theorem sync_index_cases [DecidableEq S] (env : Env S) (idx : ReverseIndex) (key : String)
    (obj : Option Service) :
    (sync env idx key obj).index = idx ∨ (sync env idx key obj).index = idx.Delete key ∨
      ∃ targets, (sync env idx key obj).index = idx.Store key targets := by
  unfold sync
  split
  · exact Or.inr (Or.inl rfl)
  · split
    · exact Or.inr (Or.inl rfl)
    · rcases reconcileEndpoints_index_cases env idx key _ with h | h
      · exact Or.inl h
      · exact Or.inr (Or.inr h)

theorem reachable_keys (S : Type) [DecidableEq S] (okKey : String → Prop) (idx : ReverseIndex)
    (h : Reachable S okKey idx) : ∀ k ∈ idx.keys, okKey k := by
  induction h with
  | init => intro k hk; simp [GoMap.keys, GoMap.empty] at hk
  | step env idx key obj _ hkey ih =>
    intro k hk
    rcases sync_index_cases env idx key obj with h | h | ⟨targets, h⟩
    · rw [h] at hk; exact ih k hk
    · rw [h] at hk; exact ih k (GoMap.mem_keys_Delete idx key k hk).1
    · rw [h] at hk
      rcases GoMap.mem_keys_Store idx key k targets hk with e | e
      · rw [e]; exact hkey
      · exact ih k e

/-- Counterexample to C9 as stated: `Controller.sync` called with the key `foo` stores an
entry under `foo`; a change of `ns2/svcB` then selects `foo`, whose split on "/" has one
element, and reading element 1 is out of range. -/
theorem reconcileServicesForEndpoint_fault_counterexample :
    Reachable String (fun _ => True)
        (sync envOnlyB GoMap.empty "foo" (some (frontService twoTargets))).index ∧
      servicesToReconcile
        (sync envOnlyB GoMap.empty "foo" (some (frontService twoTargets))).index "ns2/svcB" =
          ["foo"] ∧
      strings_Split "foo" '/' = ["foo"] ∧
      (reconcileServicesForEndpoint
        (sync envOnlyB GoMap.empty "foo" (some (frontService twoTargets))).index
        "ns2/svcB").fault = some Fault.indexOutOfRange :=
  ⟨Reachable.step envOnlyB GoMap.empty "foo" (some (frontService twoTargets)) Reachable.init
      trivial,
    by decide, by decide, by decide⟩

/-- C9 as amended: for every reverse-index state reachable through `Controller.sync` calls
whose keys contain a "/" (the `namespace/name` keys of services), and every endpoint key,
`reconcileServicesForEndpoint` runs without runtime fault and returns (nil). -/
theorem reconcileServicesForEndpoint_returns (S : Type) [DecidableEq S] (idx : ReverseIndex)
    (h : Reachable S hasSlash idx) (key : String) :
    (reconcileServicesForEndpoint idx key).fault = none :=
  (route_eq idx key
    (fun k hk => keyParts_of_hasSlash k
      (reachable_keys S hasSlash idx h k (servicesToReconcile_subset idx key k hk)))).1

/-- Witness of C9 as amended: the state after a pass for `ns/front`. -/
theorem reconcileServicesForEndpoint_returns_witness :
    (reconcileServicesForEndpoint
        (sync envOnlyB GoMap.empty "ns/front" (some (frontService twoTargets))).index
        "ns2/svcB").enqueued = [("ns", "front")] ∧
      (reconcileServicesForEndpoint
        (sync envOnlyB GoMap.empty "ns/front" (some (frontService twoTargets))).index
        "ns2/svcB").fault = none :=
  ⟨by decide,
    reconcileServicesForEndpoint_returns String _
      (Reachable.step envOnlyB GoMap.empty "ns/front" (some (frontService twoTargets))
        Reachable.init (by decide)) "ns2/svcB"⟩

/-! ## Two passes in succession -/

theorem foldl_reflect_ne [DecidableEq S] (env : Env S) (obj : Service) (ws : List (Write S))
    (ns name : String) (h : ¬ (ns = obj.Namespace ∧ name = obj.Name))
    (get : String → String → Except Error (Endpoints S)) :
    (ws.foldl
      (fun get w =>
        if (env.writeError w).isNone then
          fun ns name => if ns = obj.Namespace ∧ name = obj.Name then .ok w.ep else get ns name
        else get) get) ns name = get ns name := by
  induction ws generalizing get with
  | nil => rfl
  | cons w ws ih =>
    rw [List.foldl_cons, ih]
    by_cases hw : (env.writeError w).isNone = true
    · simp only [hw, if_true, if_neg h]
    · simp only [hw]
      rfl

theorem afterWrites_listerGet_ne [DecidableEq S] (env : Env S) (obj : Service)
    (ws : List (Write S)) (ns name : String) (h : ¬ (ns = obj.Namespace ∧ name = obj.Name)) :
    (env.afterWrites obj ws).listerGet ns name = env.listerGet ns name :=
  foldl_reflect_ne env obj ws ns name h env.listerGet

theorem resolveTargets_congr (env env2 : Env S) (records : List String)
    (h : ∀ r ∈ records, ∀ p, lookupArgs r = some p →
      env2.listerGet p.1 p.2 = env.listerGet p.1 p.2)
    (st : LoopState S) :
    resolveTargets env2 records st = resolveTargets env records st := by
  induction records generalizing st with
  | nil => rfl
  | cons r rest ih =>
    have hrest : ∀ r' ∈ rest, ∀ p, lookupArgs r' = some p →
        env2.listerGet p.1 p.2 = env.listerGet p.1 p.2 :=
      fun r' hr' => h r' (List.mem_cons_of_mem _ hr')
    rw [resolveTargets, resolveTargets]
    cases hs : strings_Split (strings_TrimSpace r) ':' with
    | nil => rfl
    | cons ns l =>
      cases l with
      | nil => rfl
      | cons service tl =>
        have hla := lookupArgs_of_split r ns service tl hs
        have hget := h r (List.mem_cons_self _ _) (ns, service) hla
        simp only at hget
        simp only [hget]
        cases env.listerGet ns service with
        | error e => exact ih hrest _
        | ok ep =>
          by_cases hdel : ep.DeletionTimestamp.isSome = true
          · simp only [hdel, if_true]; exact ih hrest _
          · simp only [hdel]; exact ih hrest _

theorem writeEndpoints_twice [DecidableEq S] (env : Env S) (idx idx2 : ReverseIndex)
    (key : String) (obj : Service) (st : LoopState S)
    (hw : ∀ w ∈ (writeEndpoints env idx key obj st).writes, env.writeError w = none) :
    (writeEndpoints (env.afterWrites obj (writeEndpoints env idx key obj st).writes) idx2 key
        obj st).writes = [] ∧
      (writeEndpoints (env.afterWrites obj (writeEndpoints env idx key obj st).writes) idx2 key
        obj st).err = (writeEndpoints env idx key obj st).err ∧
      (∀ e, env.listerGet obj.Namespace obj.Name = .error e → IsNotFound e = true →
        ∃ ep, (writeEndpoints env idx key obj st).writes = [Write.create ep] ∧
          ep.Namespace = obj.Namespace ∧ ep.Name = obj.Name ∧
          ep.Subsets = st.newEndpointSubsets) ∧
      (∀ e, env.listerGet obj.Namespace obj.Name = .error e → IsNotFound e = false →
        (writeEndpoints env idx key obj st).writes = []) ∧
      (∀ ep, env.listerGet obj.Namespace obj.Name = .ok ep →
        ep.Subsets ≠ st.newEndpointSubsets →
        (writeEndpoints env idx key obj st).writes =
          [Write.update { ep with Subsets := st.newEndpointSubsets }]) ∧
      (∀ ep, env.listerGet obj.Namespace obj.Name = .ok ep →
        ep.Subsets = st.newEndpointSubsets →
        (writeEndpoints env idx key obj st).writes = []) := by
  cases hg : env.listerGet obj.Namespace obj.Name with
  | error e =>
    by_cases hnf : IsNotFound e = true
    · cases hc : env.create
          { Name := obj.Name
            OwnerReferences :=
              [{ Name := obj.Name, APIVersion := "v1", UID := obj.UID, Kind := "Service",
                 Controller := some true }]
            Namespace := obj.Namespace, DeletionTimestamp := none
            Subsets := st.newEndpointSubsets } with
      | some err =>
        have hmem : Write.create
            { Name := obj.Name
              OwnerReferences :=
                [{ Name := obj.Name, APIVersion := "v1", UID := obj.UID, Kind := "Service",
                   Controller := some true }]
              Namespace := obj.Namespace, DeletionTimestamp := none
              Subsets := st.newEndpointSubsets } ∈
            (writeEndpoints env idx key obj st).writes := by
          simp [writeEndpoints, hg, hnf, hc]
        have := hw _ hmem
        rw [Env.writeError, hc] at this
        cases this
      | none =>
        simp [writeEndpoints, hg, hnf, hc, Env.afterWrites, Env.writeError, Write.ep]
    · simp [writeEndpoints, hg, hnf, Env.afterWrites]
  | ok ep =>
    by_cases heq : ep.Subsets = st.newEndpointSubsets
    · simp [writeEndpoints, hg, heq, Env.afterWrites]
    · cases hu : env.update { ep with Subsets := st.newEndpointSubsets } with
      | some err =>
        have hmem : Write.update { ep with Subsets := st.newEndpointSubsets } ∈
            (writeEndpoints env idx key obj st).writes := by
          simp [writeEndpoints, hg, heq, hu]
        have := hw _ hmem
        rw [Env.writeError, hu] at this
        cases this
      | none =>
        simp [writeEndpoints, hg, heq, hu, Env.afterWrites, Env.writeError, Write.ep]

/-- Counterexample to C2 as stated: two passes in succession do not always make exactly one
write in total.  When the endpoint of the front service already holds the computed subsets
they make none; when the front service lists its own endpoint as a target the second pass
writes again (a `Create`, then an `Update`); when the `Create` of the first pass fails the
second pass repeats it; when the lookup of the front service's endpoint fails with an error
other than not-found neither pass writes. -/
theorem sync_twice_counterexample :
    ((sync envUpToDate GoMap.empty "ns/front" (some (frontService twoTargets))).writes ++
        (secondPass envUpToDate GoMap.empty "ns/front" (frontService twoTargets)).writes).length
        = 0 ∧
      ((sync envSelfTarget GoMap.empty "ns/front"
          (some (frontService "[\"ns:front\",\"ns2:svcB\"]"))).writes.map
            (fun w => w.ep.Subsets) = [GoSlice.mk ["b1", "b2"]] ∧
        (secondPass envSelfTarget GoMap.empty "ns/front"
          (frontService "[\"ns:front\",\"ns2:svcB\"]")).writes.map
            (fun w => w.ep.Subsets) = [GoSlice.mk ["b1", "b2", "b1", "b2"]]) ∧
      ((sync envCreateFails GoMap.empty "ns/front" (some (frontService twoTargets))).writes ++
        (secondPass envCreateFails GoMap.empty "ns/front"
          (frontService twoTargets)).writes).length = 2 ∧
      ((sync envLookupFails GoMap.empty "ns/front" (some (frontService twoTargets))).writes ++
        (secondPass envLookupFails GoMap.empty "ns/front"
          (frontService twoTargets)).writes).length = 0 := by
  decide

/-- C2 as amended: for a live front service with a well-formed annotation that does not list
its own endpoint as a target, when the write of the first pass (if it makes one) succeeds, a
second pass made in succession, with the lister reflecting that write, makes no write and
returns what the first returned; the writes of the two passes together are exactly one
`Create` carrying the computed subsets when the first pass found the endpoint of the front
service absent, exactly one `Update` carrying them when it found the endpoint holding other
subsets, and none when the endpoint already held them or its lookup failed with an error
other than not-found. -/
theorem sync_twice_writes [DecidableEq S] (env : Env S) (idx : ReverseIndex)
    (key : String) (obj : Service) (annotations : GoMap String) (value : String)
    (records : List String)
    (hlive : obj.DeletionTimestamp = none)
    (hann : obj.Annotations = some annotations)
    (hval : annotations.Load DNSAnnotation = some value)
    (hjson : env.unmarshal value = .ok records)
    (hparts : ∀ r ∈ records, 2 ≤ (strings_Split (strings_TrimSpace r) ':').length)
    (hself : ∀ r ∈ records, lookupArgs r ≠ some (obj.Namespace, obj.Name))
    (hwrite : ∀ w ∈ (sync env idx key (some obj)).writes, env.writeError w = none) :
    ∃ st, resolveTargets env records initLoop = (none, st) ∧
      (secondPass env idx key obj).writes = [] ∧
      (secondPass env idx key obj).err = (sync env idx key (some obj)).err ∧
      (∀ e, env.listerGet obj.Namespace obj.Name = .error e → IsNotFound e = true →
        ∃ ep, (sync env idx key (some obj)).writes ++ (secondPass env idx key obj).writes =
            [Write.create ep] ∧
          ep.Namespace = obj.Namespace ∧ ep.Name = obj.Name ∧
          ep.Subsets = st.newEndpointSubsets) ∧
      (∀ e, env.listerGet obj.Namespace obj.Name = .error e → IsNotFound e = false →
        (sync env idx key (some obj)).writes ++ (secondPass env idx key obj).writes = []) ∧
      (∀ ep, env.listerGet obj.Namespace obj.Name = .ok ep →
        ep.Subsets ≠ st.newEndpointSubsets →
        (sync env idx key (some obj)).writes ++ (secondPass env idx key obj).writes =
          [Write.update { ep with Subsets := st.newEndpointSubsets }]) ∧
      (∀ ep, env.listerGet obj.Namespace obj.Name = .ok ep →
        ep.Subsets = st.newEndpointSubsets →
        (sync env idx key (some obj)).writes ++ (secondPass env idx key obj).writes = []) := by
  have hs : ∀ (e : Env S) (i : ReverseIndex),
      sync e i key (some obj) = reconcileEndpoints e i key obj := by
    intro e i
    simp [sync, hlive]
  obtain ⟨st, hloop, _, _, _⟩ := resolveTargets_ok env records hparts initLoop
  have hr := reconcileEndpoints_eq env idx key obj annotations value records hann hval hjson
  rw [hloop] at hr
  simp only at hr
  have hcongr : resolveTargets
      (env.afterWrites obj (reconcileEndpoints env idx key obj).writes) records
      initLoop = (none, st) := by
    rw [← hloop]
    apply resolveTargets_congr
    intro r hr' p hp
    apply afterWrites_listerGet_ne
    rintro ⟨e1, e2⟩
    apply hself r hr'
    rw [hp, ← e1, ← e2]
  have hr2 := reconcileEndpoints_eq
    (env.afterWrites obj (reconcileEndpoints env idx key obj).writes)
    (reconcileEndpoints env idx key obj).index key obj annotations value records
    hann hval hjson
  rw [hcongr] at hr2
  simp only at hr2
  rw [hs, hr] at hwrite
  obtain ⟨t1, t2, t3, t4, t5, t6⟩ := writeEndpoints_twice env idx
    (reconcileEndpoints env idx key obj).index key obj st hwrite
  unfold secondPass
  simp only [hs]
  rw [hr2, hr]
  rw [hr] at t1 t2
  refine ⟨st, hloop, t1, t2, ?_, ?_, ?_, ?_⟩
  · intro e he hnf
    rw [t1, List.append_nil]
    exact t3 e he hnf
  · intro e he hnf
    rw [t1, List.append_nil]
    exact t4 e he hnf
  · intro ep hep hne
    rw [t1, List.append_nil]
    exact t5 ep hep hne
  · intro ep hep heq
    rw [t1, List.append_nil]
    exact t6 ep hep heq

/-- Witness of C2 as amended: the targets `ns1:svcA`, `ns2:svcB` with `svcA` not found and
the endpoint of `ns/front` absent; the first pass creates it with the subsets of `svcB`, the
second makes no write. -/
theorem sync_twice_writes_witness :
    ((sync envOnlyB GoMap.empty "ns/front" (some (frontService twoTargets))).writes ++
        (secondPass envOnlyB GoMap.empty "ns/front" (frontService twoTargets)).writes).map
        (fun w => w.ep.Subsets) = [GoSlice.mk ["b1", "b2"]] ∧
      ∃ st, resolveTargets envOnlyB ["ns1:svcA", "ns2:svcB"] initLoop = (none, st) ∧
        (secondPass envOnlyB GoMap.empty "ns/front" (frontService twoTargets)).writes = [] ∧
        (secondPass envOnlyB GoMap.empty "ns/front" (frontService twoTargets)).err =
          (sync envOnlyB GoMap.empty "ns/front" (some (frontService twoTargets))).err ∧
        (∀ e, envOnlyB.listerGet (frontService twoTargets).Namespace
            (frontService twoTargets).Name = .error e → IsNotFound e = true →
          ∃ ep, (sync envOnlyB GoMap.empty "ns/front"
                (some (frontService twoTargets))).writes ++
              (secondPass envOnlyB GoMap.empty "ns/front" (frontService twoTargets)).writes =
              [Write.create ep] ∧
            ep.Namespace = (frontService twoTargets).Namespace ∧
            ep.Name = (frontService twoTargets).Name ∧
            ep.Subsets = st.newEndpointSubsets) ∧
        (∀ e, envOnlyB.listerGet (frontService twoTargets).Namespace
            (frontService twoTargets).Name = .error e → IsNotFound e = false →
          (sync envOnlyB GoMap.empty "ns/front" (some (frontService twoTargets))).writes ++
            (secondPass envOnlyB GoMap.empty "ns/front" (frontService twoTargets)).writes =
            []) ∧
        (∀ ep, envOnlyB.listerGet (frontService twoTargets).Namespace
            (frontService twoTargets).Name = .ok ep →
          ep.Subsets ≠ st.newEndpointSubsets →
          (sync envOnlyB GoMap.empty "ns/front" (some (frontService twoTargets))).writes ++
            (secondPass envOnlyB GoMap.empty "ns/front" (frontService twoTargets)).writes =
            [Write.update { ep with Subsets := st.newEndpointSubsets }]) ∧
        (∀ ep, envOnlyB.listerGet (frontService twoTargets).Namespace
            (frontService twoTargets).Name = .ok ep →
          ep.Subsets = st.newEndpointSubsets →
          (sync envOnlyB GoMap.empty "ns/front" (some (frontService twoTargets))).writes ++
            (secondPass envOnlyB GoMap.empty "ns/front" (frontService twoTargets)).writes =
            []) :=
  ⟨by decide,
    sync_twice_writes envOnlyB GoMap.empty "ns/front" (frontService twoTargets)
      (GoMap.empty.Store DNSAnnotation twoTargets) twoTargets ["ns1:svcA", "ns2:svcB"]
      rfl rfl (by decide) rfl twoTargets_parts (by decide)
      (by
        intro w hw
        have hws : (sync envOnlyB GoMap.empty "ns/front"
            (some (frontService twoTargets))).writes =
            [Write.create
              { Namespace := "ns", Name := "front", DeletionTimestamp := none,
                OwnerReferences := [⟨"v1", "Service", "front", "uid-1", some true⟩],
                Subsets := GoSlice.mk ["b1", "b2"] }] := by decide
        rw [hws] at hw
        rw [List.mem_singleton.1 hw]
        rfl)⟩

end Dnsrecord

namespace V3

/-! ## The claims on `dynamicSchemaStatusHandler.sync` -/

/-- Counterexample to C7 as stated: with the condition marker `Ready` configured, a transition
that fails makes `sync` call `UpdateStatus` with a status that differs from the prior one (the
condition is set to `False` with the error text, and its last-updated time is stamped). -/
theorem sync_transition_error_counterexample :
    (dynamicSchemaStatusHandler.sync (condHandler "Ready" failingTransition) "schema"
        (some (schemaWith "True"))).updates.map (fun o => o.Status) =
        [{ Fake := "v1", condStatus := "False", condMessage := "boom",
           condLastUpdated := "2024-01-01T00:00:00Z" }] ∧
      (schemaWith "True").Status =
        { Fake := "v1", condStatus := "True", condMessage := "", condLastUpdated := "t0" } ∧
      (dynamicSchemaStatusHandler.sync (condHandler "Ready" failingTransition) "schema"
        (some (schemaWith "True"))).err = some (Error.other "boom") := by
  decide

/-- C7 as amended: when the status-transition function returns an error, `sync` returns that
error and discards the status the transition computed.  It calls `UpdateStatus` exactly when
the prior status with the condition marker applied (its error field set to the error, or
cleared when the error is or wraps a conflict; nothing when no marker is configured) is not
equal to the prior status, and then once, with the prior status changed only by the marker
(error field and last-updated time); so every `UpdateStatus` call carries that status, and
with no marker configured and a prior status equal to itself `UpdateStatus` is not called. -/
theorem sync_transition_error_reverts {St : Type} (a : StatusHandler St) (key : String)
    (obj obj' : DynamicSchema St) (s : St) (e : Error)
    (hh : a.handler obj obj.Status = (obj', s, some e)) :
    (dynamicSchemaStatusHandler.sync a key (some obj)).err = some e ∧
      (dynamicSchemaStatusHandler.sync a key (some obj)).updates =
        (if a.semanticDeepEqual obj.Status (markedStatus a obj.Status e) then []
         else [{ obj' with Status := revertedStatus a obj.Status e }]) ∧
      (∀ u ∈ (dynamicSchemaStatusHandler.sync a key (some obj)).updates,
        u.Status = revertedStatus a obj.Status e) ∧
      (a.condition = "" → a.semanticDeepEqual obj.Status obj.Status = true →
        (dynamicSchemaStatusHandler.sync a key (some obj)).updates = []) := by
  unfold dynamicSchemaStatusHandler.sync revertedStatus markedStatus
  simp only [hh, Option.isSome_some, if_true]
  by_cases hc : a.condition = ""
  · simp only [hc, ne_eq, not_true_eq_false, if_false]
    by_cases hd : a.semanticDeepEqual obj.Status obj.Status = true
    · simp [hd]
    · have hd' : a.semanticDeepEqual obj.Status obj.Status = false := by simpa using hd
      simp only [hd']
      cases a.updateStatus { obj' with Status := obj.Status } <;> simp
  · simp only [ne_eq, hc, not_false_eq_true, if_true]
    by_cases hk : IsConflict (some e) = true
    · simp only [hk, if_true]
      by_cases hd : a.semanticDeepEqual obj.Status (a.setError a.condition obj.Status "" none)
          = true
      · simp [hd]
      · have hd' : a.semanticDeepEqual obj.Status
            (a.setError a.condition obj.Status "" none) = false := by simpa using hd
        simp only [hd']
        cases a.updateStatus _ <;> simp
    · have hk' : IsConflict (some e) = false := by simpa using hk
      simp only [hk', Bool.false_eq_true, if_false]
      by_cases hd : a.semanticDeepEqual obj.Status
          (a.setError a.condition obj.Status "" (some e)) = true
      · simp [hd]
      · have hd' : a.semanticDeepEqual obj.Status
            (a.setError a.condition obj.Status "" (some e)) = false := by simpa using hd
        simp only [hd']
        cases a.updateStatus _ <;> simp

/-- Witness of C7 as amended, with the marker `Ready` configured: after a failed transition
the one `UpdateStatus` call carries the prior status with the condition set to `False` and
the error text; after a transition that fails with a wrapped conflict it carries the prior
status with the condition cleared to `True`. -/
theorem sync_transition_error_reverts_witness :
    (dynamicSchemaStatusHandler.sync (condHandler "Ready" failingTransition) "schema"
        (some (schemaWith "True"))).updates.map (fun o => o.Status) =
        [revertedStatus (condHandler "Ready" failingTransition) (schemaWith "True").Status
          (Error.other "boom")] ∧
      revertedStatus (condHandler "Ready" failingTransition) (schemaWith "True").Status
          (Error.other "boom") =
        { Fake := "v1", condStatus := "False", condMessage := "boom",
          condLastUpdated := "2024-01-01T00:00:00Z" } ∧
      (dynamicSchemaStatusHandler.sync (condHandler "Ready" conflictTransition) "schema"
        (some (schemaWith "False"))).updates.map (fun o => o.Status) =
        [{ Fake := "v1", condStatus := "True", condMessage := "",
           condLastUpdated := "2024-01-01T00:00:00Z" }] ∧
      revertedStatus (condHandler "Ready" conflictTransition) (schemaWith "False").Status
          (Error.wrapped "apply" Error.conflict) =
        { Fake := "v1", condStatus := "True", condMessage := "",
          condLastUpdated := "2024-01-01T00:00:00Z" } ∧
      (dynamicSchemaStatusHandler.sync (condHandler "Ready" failingTransition) "schema"
        (some (schemaWith "True"))).err = some (Error.other "boom") ∧
      (dynamicSchemaStatusHandler.sync (condHandler "Ready" failingTransition) "schema"
        (some (schemaWith "True"))).updates =
        (if (condHandler "Ready" failingTransition).semanticDeepEqual
            (schemaWith "True").Status
            (markedStatus (condHandler "Ready" failingTransition) (schemaWith "True").Status
              (Error.other "boom")) then []
         else [{ schemaWith "True" with
                 Status := revertedStatus (condHandler "Ready" failingTransition)
                   (schemaWith "True").Status (Error.other "boom") }]) ∧
      (∀ u ∈ (dynamicSchemaStatusHandler.sync (condHandler "Ready" failingTransition) "schema"
          (some (schemaWith "True"))).updates,
        u.Status = revertedStatus (condHandler "Ready" failingTransition)
          (schemaWith "True").Status (Error.other "boom")) ∧
      ((condHandler "Ready" failingTransition).condition = "" →
        (condHandler "Ready" failingTransition).semanticDeepEqual (schemaWith "True").Status
          (schemaWith "True").Status = true →
        (dynamicSchemaStatusHandler.sync (condHandler "Ready" failingTransition) "schema"
          (some (schemaWith "True"))).updates = []) :=
  ⟨by decide, by decide, by decide, by decide,
    sync_transition_error_reverts (condHandler "Ready" failingTransition) "schema"
      (schemaWith "True") (schemaWith "True")
      { Fake := "computed", condStatus := "True", condMessage := "", condLastUpdated := "t0" }
      (Error.other "boom") rfl⟩

/-- Counterexample to C8 as stated: with the condition marker `Ready` configured and a current
status whose condition is not yet `True`, a transition that returns the current status
unchanged and no error still makes `sync` call `UpdateStatus` (the marker is set to `True`). -/
theorem sync_unchanged_status_counterexample :
    (condHandler "Ready" unchangedTransition).handler (schemaWith "Unknown")
        (schemaWith "Unknown").Status =
        (schemaWith "Unknown", (schemaWith "Unknown").Status, none) ∧
      (dynamicSchemaStatusHandler.sync (condHandler "Ready" unchangedTransition) "schema"
        (some (schemaWith "Unknown"))).updates.map (fun o => o.Status) =
        [{ Fake := "v1", condStatus := "True", condMessage := "",
           condLastUpdated := "2024-01-01T00:00:00Z" }] := by
  decide

/-- C8 as amended: for a non-nil object, if the status-transition function returns without
error a status equal to the object's current status, and either no condition marker is
configured or clearing the marker's error leaves that status as it is, `sync` does not call
`UpdateStatus` and returns a nil error. -/
theorem sync_unchanged_status_no_write {St : Type} (a : StatusHandler St) (key : String)
    (obj obj' : DynamicSchema St) (s : St)
    (hh : a.handler obj obj.Status = (obj', s, none))
    (heq : a.semanticDeepEqual obj.Status s = true)
    (hc : a.condition = "" ∨ a.setError a.condition s "" none = s) :
    (dynamicSchemaStatusHandler.sync a key (some obj)).updates = [] ∧
      (dynamicSchemaStatusHandler.sync a key (some obj)).err = none := by
  unfold dynamicSchemaStatusHandler.sync
  simp only [hh]
  by_cases hcond : a.condition = ""
  · simp [hcond, heq]
  · rcases hc with hc | hc
    · exact absurd hc hcond
    · simp [hcond, IsConflict, hc, heq]

/-- Witness of C8 as amended: the marker `Ready` is configured and already `True`. -/
theorem sync_unchanged_status_no_write_witness :
    (dynamicSchemaStatusHandler.sync (condHandler "Ready" unchangedTransition) "schema"
        (some (schemaWith "True"))).updates = [] ∧
      (dynamicSchemaStatusHandler.sync (condHandler "Ready" unchangedTransition) "schema"
        (some (schemaWith "True"))).err = none :=
  sync_unchanged_status_no_write (condHandler "Ready" unchangedTransition) "schema"
    (schemaWith "True") (schemaWith "True") (schemaWith "True").Status rfl (by decide)
    (Or.inr (by decide))

end V3

end Rancher
